import Mathlib

/-!
Shallow embedding of the VacuumAgent repository (Direction.py, Environment.py,
VacuumSettings.py, VacuumAgent.py) and proofs about it.

Conventions of the embedding:
* Python floats are modelled as rationals (`ℚ`), Python ints as `ℤ`.
* Python dicts are modelled as association lists with unique keys
  (`alistFind` / `alistSet` mirror `d[k]` lookup and `d[k] = v` assignment).
* Python sets of positions are modelled as duplicate-free lists; `setAdd`,
  `setRemove` mirror `s.add` / `s.remove`.  Iteration order of a Python set
  is unspecified; where the source iterates a set (`find_path_to_dirt`) the
  embedding iterates the list in insertion order (a determinization).
* `heapq` keeps tuples `(f_score, position)`; since every pushed position is
  distinct (a position is pushed at most once), `heappop` deterministically
  returns the lexicographically least tuple.  The embedding models the heap
  as a list and `extractMin` removes that least element.
* Python `KeyError` (reachable in `a_star_pathfind` via `self.map[current_pos]`
  when the start position is not in the map) is modelled with `Except Unit`.
* Loops without a structural measure carry explicit fuel; the chosen fuel
  provably dominates the number of iterations the source performs (each
  A* iteration pops one heap entry and every position is pushed at most
  once, so `map.length + 2` iterations suffice; the reconstruction chain
  strictly decreases the non-negative g-score, so `natAbs g` steps suffice).
-/

/-- Grid coordinates `(x, y)`: the key type of all per-cell knowledge. -/
abbrev Position := ℤ × ℤ

/-- Lookup in an association list, mirroring Python dict `d.get(k)` / `d[k]`. -/
def alistFind {α : Type} (k : Position) : List (Position × α) → Option α
  | [] => none
  | (k2, v) :: rest => if k2 = k then some v else alistFind k rest

/-- Assignment `d[k] = v` on an association list with unique keys:
replace the binding if present, else append it. -/
def alistSet {α : Type} (k : Position) (v : α) : List (Position × α) → List (Position × α)
  | [] => [(k, v)]
  | (k2, w) :: rest => if k2 = k then (k, v) :: rest else (k2, w) :: alistSet k v rest

/-- Python `s.add(p)` on a set modelled as a duplicate-free list. -/
def setAdd (l : List Position) (p : Position) : List Position :=
  if p ∈ l then l else l ++ [p]

/-- Python `s.remove(p)` on a set modelled as a duplicate-free list. -/
def setRemove (l : List Position) (p : Position) : List Position :=
  l.filter (fun q => q ≠ p)

/-- The four cardinal directions of `Direction.py`. -/
inductive Direction where
  | NORTH
  | EAST
  | SOUTH
  | WEST
deriving DecidableEq, Repr

/-- Turn angle of a direction (`Direction.angle`). -/
def Direction.angle : Direction → ℤ
  | .NORTH => 0
  | .EAST => 90
  | .SOUTH => 180
  | .WEST => 270

/-- Unit movement vector of a direction (`Direction.movement_vector`). -/
def Direction.movement_vector : Direction → ℤ × ℤ
  | .NORTH => (0, 1)
  | .EAST => (1, 0)
  | .SOUTH => (0, -1)
  | .WEST => (-1, 0)

/-- `Direction.from_angle`: normalize the angle modulo 360 and look it up.
The source's dict lookup raises on angles outside {0,90,180,270}; every call
site passes `self.angle ± 90`, so the final catch-all case is unreachable. -/
def Direction.from_angle (angle : ℤ) : Direction :=
  let normalized_angle := angle % 360
  if normalized_angle = 0 then .NORTH
  else if normalized_angle = 90 then .EAST
  else if normalized_angle = 180 then .SOUTH
  else .WEST

/-- `Direction.left`: the direction 90 degrees to the left. -/
def Direction.left (d : Direction) : Direction := Direction.from_angle (d.angle - 90)

/-- `Direction.right`: the direction 90 degrees to the right. -/
def Direction.right (d : Direction) : Direction := Direction.from_angle (d.angle + 90)

/-- The sensor-position strings passed to `sense_height` / `sense_dust`. -/
inductive SensorPosition where
  | current
  | forward
  | left
  | right
deriving DecidableEq, Repr

/-- `Direction.get_relative_position`: movement vector for a relative
position, `None` for any other argument (here: `current`). -/
def Direction.get_relative_position (d : Direction) :
    SensorPosition → Option (ℤ × ℤ)
  | .forward => some d.movement_vector
  | .left => some d.left.movement_vector
  | .right => some d.right.movement_vector
  | .current => none

/-- A cell record of `Environment.py` (CSV row): four height deltas, a
texture tag, a dust weight and a cleaned flag. -/
structure EnvCell where
  delta_l : ℤ
  delta_r : ℤ
  delta_u : ℤ
  delta_d : ℤ
  texture : String
  dust_weight : ℚ
  cleaned : Bool
deriving DecidableEq, Repr

/-- Reading `cell[direction.delta_key]` on an environment cell:
NORTH selects `delta_u`, EAST `delta_r`, SOUTH `delta_d`, WEST `delta_l`. -/
def EnvCell.delta (c : EnvCell) : Direction → ℤ
  | .NORTH => c.delta_u
  | .EAST => c.delta_r
  | .SOUTH => c.delta_d
  | .WEST => c.delta_l

/-- The grid data store of `Environment.py`. -/
structure Environment where
  grid : List (Position × EnvCell)
deriving DecidableEq, Repr

/-- `Environment.get_cell`. -/
def Environment.get_cell (env : Environment) (x y : ℤ) : Option EnvCell :=
  alistFind (x, y) env.grid

/-- `Environment.get_sucked`: if the pressure covers the remaining dust the
cell is zeroed and flagged cleaned; otherwise the grid is left unchanged. -/
def Environment.get_sucked (env : Environment) (x y : ℤ) (pressure : ℚ) :
    Environment :=
  match alistFind (x, y) env.grid with
  | none => env
  | some cell =>
    let dust_weight := cell.dust_weight
    if 0 ≥ dust_weight - pressure then
      { grid := alistSet (x, y)
          { cell with dust_weight := 0, cleaned := true } env.grid }
    else env

/-- The two suction pressure levels used by the agent. -/
inductive Pressure where
  | normal
  | heavy
deriving DecidableEq, Repr

/-- The numeric operating parameters of `VacuumSettings.py`. -/
structure VacuumSettings where
  time_duration : ℚ
  rotation_power : ℚ
  move_power : ℚ
  normal_vacuum_power : ℚ
  heavy_vacuum_power : ℚ
  time_power : ℚ
  sensor_power : ℚ
  other_power : ℚ
deriving DecidableEq, Repr

/-- `self.MAX_SAFE_HEIGHT = 3`: maximum safe height difference for movement. -/
def MAX_SAFE_HEIGHT : ℤ := 3

/-- `self.MAX_SUCTION_WEIGHT = {'normal': 1, 'heavy': 5}`. -/
def MAX_SUCTION_WEIGHT : Pressure → ℚ
  | .normal => 1
  | .heavy => 5

/-- `getattr(self.settings, f"{pressure}_vacuum_power")`. -/
def VacuumSettings.vacuum_power (st : VacuumSettings) : Pressure → ℚ
  | .normal => st.normal_vacuum_power
  | .heavy => st.heavy_vacuum_power

/-- The agent's partial knowledge of one cell (an entry of `self.map`).
Every entry is created with `dust_weight` and `cleaned` assigned at once,
so those two keys are always present; the four directional height deltas
are optional. -/
structure CellKnowledge where
  dust_weight : ℚ
  cleaned : Bool
  delta_u : Option ℤ
  delta_r : Option ℤ
  delta_d : Option ℤ
  delta_l : Option ℤ
deriving DecidableEq, Repr

/-- Reading `self.map[pos][direction.delta_key]` (absent key gives `none`). -/
def CellKnowledge.delta (c : CellKnowledge) : Direction → Option ℤ
  | .NORTH => c.delta_u
  | .EAST => c.delta_r
  | .SOUTH => c.delta_d
  | .WEST => c.delta_l

/-- Writing `self.map[pos][direction.delta_key] = h`. -/
def CellKnowledge.setDelta (c : CellKnowledge) (d : Direction) (h : ℤ) :
    CellKnowledge :=
  match d with
  | .NORTH => { c with delta_u := some h }
  | .EAST => { c with delta_r := some h }
  | .SOUTH => { c with delta_d := some h }
  | .WEST => { c with delta_l := some h }

/-- The full agent state of `VacuumAgent.__init__`. -/
structure VacuumAgent where
  position : Position
  direction : Direction
  settings : VacuumSettings
  power_consumed : ℚ
  cleaned_cells : List Position
  dirty_cells : List Position
  map : List (Position × CellKnowledge)
  visited_cells : List Position
  last_visit_time : List (Position × ℤ)
  visit_count : List (Position × ℤ)
  time : ℤ
  current_path : List Direction
deriving DecidableEq, Repr

/-- `VacuumAgent.__init__(settings)`. -/
def VacuumAgent.init (settings : VacuumSettings) : VacuumAgent where
  position := (0, 0)
  direction := .NORTH
  settings := settings
  power_consumed := 0
  cleaned_cells := []
  dirty_cells := []
  map := []
  visited_cells := []
  last_visit_time := []
  visit_count := []
  time := 0
  current_path := []

/-- `VacuumAgent.rotate`: charge the shortest rotation and face the target. -/
def VacuumAgent.rotate (a : VacuumAgent) (target_direction : Direction) :
    VacuumAgent :=
  let current_angle := a.direction.angle
  let target_angle := target_direction.angle
  let diff0 := (target_angle - current_angle) % 360
  let diff := if diff0 > 180 then diff0 - 360 else diff0
  let rotations : ℚ := (|diff| : ℤ) / 90
  { a with
    power_consumed := a.power_consumed + rotations * a.settings.rotation_power
    direction := target_direction }

/-- The position one step ahead of `p` in direction `d`. -/
def stepPos (p : Position) (d : Direction) : Position :=
  (p.1 + d.movement_vector.1, p.2 + d.movement_vector.2)

/-- `VacuumAgent.move_forward`: move one cell ahead if the environment has a
cell there, returning the updated agent and the success flag. -/
def VacuumAgent.move_forward (a : VacuumAgent) (env : Environment) :
    VacuumAgent × Bool :=
  let new_pos := stepPos a.position a.direction
  if (env.get_cell new_pos.1 new_pos.2).isSome then
    ({ a with
        position := new_pos
        power_consumed := a.power_consumed + a.settings.move_power }, true)
  else
    (a, false)

/-- `VacuumAgent.sense_height`: always charges one sensing unit, then reads
the current environment cell's height delta for the relative heading
(`none` when the current cell is missing or the argument is not a relative
heading). -/
def VacuumAgent.sense_height (a : VacuumAgent) (env : Environment)
    (sensor_position : SensorPosition) : VacuumAgent × Option ℤ :=
  let a2 := { a with power_consumed := a.power_consumed + a.settings.sensor_power }
  match env.get_cell a.position.1 a.position.2 with
  | none => (a2, none)
  | some current_cell =>
    match sensor_position with
    | .forward => (a2, some (current_cell.delta a.direction))
    | .left => (a2, some (current_cell.delta a.direction.left))
    | .right => (a2, some (current_cell.delta a.direction.right))
    | .current => (a2, none)

/-- `VacuumAgent.sense_dust`: returns `(position, dust_weight)` or `none`.
A cached map entry is reused without cost; otherwise one sensing unit is
charged before the environment lookup (so an out-of-grid target still
costs one unit). -/
def VacuumAgent.sense_dust (a : VacuumAgent) (env : Environment)
    (sensor_position : SensorPosition) :
    VacuumAgent × Option (Position × ℚ) :=
  match sensor_position with
  | .current =>
    match alistFind a.position a.map with
    | some c => (a, some (a.position, c.dust_weight))
    | none =>
      let a2 := { a with power_consumed := a.power_consumed + a.settings.sensor_power }
      match env.get_cell a.position.1 a.position.2 with
      | some cell => (a2, some (a.position, cell.dust_weight))
      | none => (a2, none)
  | sp =>
    match a.direction.get_relative_position sp with
    | none => (a, none)
    | some move_vector =>
      let target_pos : Position :=
        (a.position.1 + move_vector.1, a.position.2 + move_vector.2)
      match alistFind target_pos a.map with
      | some c => (a, some (target_pos, c.dust_weight))
      | none =>
        let a2 := { a with power_consumed := a.power_consumed + a.settings.sensor_power }
        match env.get_cell target_pos.1 target_pos.2 with
        | some cell => (a2, some (target_pos, cell.dust_weight))
        | none => (a2, none)

/-- `VacuumAgent.suck_dust`: only when the current position is not already
in the cleaned set, charge the pressure level's vacuum power and apply the
suction to the environment. -/
def VacuumAgent.suck_dust (a : VacuumAgent) (env : Environment)
    (pressure : Pressure) : VacuumAgent × Environment :=
  if a.position ∈ a.cleaned_cells then (a, env)
  else
    ({ a with power_consumed :=
        a.power_consumed + a.settings.vacuum_power pressure },
     env.get_sucked a.position.1 a.position.2 (MAX_SUCTION_WEIGHT pressure))

/-- Writing `self.map[pos]['dust_weight'] = dw; self.map[pos]['cleaned'] =
(dw == 0)`, creating the entry (`self.map[pos] = {}`) when absent. -/
def mapRecordDust (m : List (Position × CellKnowledge)) (p : Position)
    (dw : ℚ) : List (Position × CellKnowledge) :=
  match alistFind p m with
  | some c =>
    alistSet p { c with dust_weight := dw, cleaned := if dw = 0 then true else false } m
  | none =>
    alistSet p ⟨dw, if dw = 0 then true else false, none, none, none, none⟩ m

/-- Writing `self.map[pos][delta_key] = h`.  At every call site the entry
exists (its dust weight was just recorded), so the absent case is
unreachable and leaves the map unchanged. -/
def mapRecordDelta (m : List (Position × CellKnowledge)) (p : Position)
    (d : Direction) (h : ℤ) : List (Position × CellKnowledge) :=
  match alistFind p m with
  | some c => alistSet p (c.setDelta d h) m
  | none => m

/-- Lines 174-179 and 199-204 of `VacuumAgent.py`: reclassify a touched
position into the dirty or cleaned set from its sensed dust weight. -/
def VacuumAgent.classifyDust (a : VacuumAgent) (p : Position) (dw : ℚ) :
    VacuumAgent :=
  if dw > 0 then { a with dirty_cells := setAdd a.dirty_cells p }
  else if p ∈ a.dirty_cells ∧ dw = 0 then
    { a with
      dirty_cells := setRemove a.dirty_cells p
      cleaned_cells := setAdd a.cleaned_cells p }
  else a

/-- Recording one optional height reading against the agent's current
position under the directional key `d` (the `if height is not None` body of
the height-sensing loop in `update_memory`). -/
def VacuumAgent.recordDelta (b : VacuumAgent) (d : Direction) (o : Option ℤ) :
    VacuumAgent :=
  match o with
  | some h => { b with map := mapRecordDelta b.map b.position d h }
  | none => b

/-- The `for direction in ['forward','left','right']` height-sensing loop of
`update_memory`: each reading charges, and a non-`none` reading is recorded
against the current position under the corresponding directional key. -/
def VacuumAgent.senseHeights (a : VacuumAgent) (env : Environment) :
    VacuumAgent :=
  let fwd := a.sense_height env .forward
  let a1 := fwd.1.recordDelta fwd.1.direction fwd.2
  let lft := a1.sense_height env .left
  let a2 := lft.1.recordDelta lft.1.direction.left lft.2
  let rgt := a2.sense_height env .right
  rgt.1.recordDelta rgt.1.direction.right rgt.2

/-- One iteration of the adjacent-cell loop of `update_memory` (lines
181-204): sense dust at the relative heading, and on a reading record it in
the map and reclassify the position.  The `move_vector` recheck of the
source is always `some` for the three relative headings. -/
def VacuumAgent.senseAdjacent (a : VacuumAgent) (env : Environment)
    (sp : SensorPosition) : VacuumAgent :=
  let r := a.sense_dust env sp
  match r.2 with
  | none => r.1
  | some pd =>
    match r.1.direction.get_relative_position sp with
    | none => r.1
    | some _ =>
      let a1 := { r.1 with map := mapRecordDust r.1.map pd.1 pd.2 }
      a1.classifyDust pd.1 pd.2

/-- The visit bookkeeping at the top of `update_memory`: advance time,
record the visit time and count, and append a first visit. -/
def VacuumAgent.bumpVisitStats (a : VacuumAgent) : VacuumAgent :=
  let t := a.time + 1
  let a0 := { a with
    time := t
    last_visit_time := alistSet a.position t a.last_visit_time
    visit_count := alistSet a.position
      ((alistFind a.position a.visit_count).getD 0 + 1) a.visit_count }
  if a0.position ∈ a0.visited_cells then a0
  else { a0 with visited_cells := a0.visited_cells ++ [a0.position] }

/-- The current-cell block of `update_memory` (lines 149-179): sense the
current cell and, on a reading, record its dust, sense and record the three
directional heights and reclassify the current position. -/
def VacuumAgent.recordCurrentCell (a : VacuumAgent) (env : Environment) :
    VacuumAgent :=
  let cur := a.sense_dust env .current
  match cur.2 with
  | none => cur.1
  | some pd =>
    let b0 := { cur.1 with map := mapRecordDust cur.1.map cur.1.position pd.2 }
    let b1 := b0.senseHeights env
    b1.classifyDust b1.position pd.2

/-- `VacuumAgent.update_memory`: advance time and visit statistics, sense
the current cell (recording dust, the three directional heights, and the
dirty/cleaned classification), then sense the three adjacent cells. -/
def VacuumAgent.update_memory (a : VacuumAgent) (env : Environment) :
    VacuumAgent :=
  ((((a.bumpVisitStats).recordCurrentCell env).senseAdjacent env
      .forward).senseAdjacent env .left).senseAdjacent env .right

/-- `VacuumAgent.manhattan_distance`. -/
def manhattan_distance (pos1 pos2 : Position) : ℤ :=
  |pos1.1 - pos2.1| + |pos1.2 - pos2.2|

/-- Heap-entry order: Python compares `(f_score, (x, y))` tuples
lexicographically.  All entries hold distinct positions, so this order is
total and `heappop` deterministically yields the least entry. -/
def entryLE (a b : ℤ × Position) : Bool :=
  if a.1 < b.1 then true
  else if b.1 < a.1 then false
  else if a.2.1 < b.2.1 then true
  else if b.2.1 < a.2.1 then false
  else a.2.2 ≤ b.2.2

/-- Remove the least entry (under `entryLE`) from a nonempty heap, returning
it together with the remaining entries. -/
def extractMin (e : ℤ × Position) :
    List (ℤ × Position) → (ℤ × Position) × List (ℤ × Position)
  | [] => (e, [])
  | x :: xs =>
    if entryLE e x then
      let r := extractMin e xs
      (r.1, x :: r.2)
    else
      let r := extractMin x xs
      (r.1, e :: r.2)

/-- The mutable state of one `a_star_pathfind` run. -/
structure AStarState where
  open_set : List (ℤ × Position)
  in_open_set : List Position
  closed_set : List Position
  g_score : List (Position × ℤ)
  f_score : List (Position × ℤ)
  came_from : List (Position × (Position × Direction))
deriving DecidableEq, Repr

/-- `VacuumAgent.reconstruct_path`: walk backward through the predecessor
links, collecting directions; the source's `while current_pos in came_from`
loop with a final `reversed` is rendered as structural recursion producing
the directions already in traversal order.  The fuel dominates the chain
length (the chain strictly decreases the non-negative g-score). -/
def reconstruct_path (came_from : List (Position × (Position × Direction))) :
    ℕ → Position → List Direction
  | 0, _ => []
  | fuel + 1, current_pos =>
    match alistFind current_pos came_from with
    | none => []
    | some pd => reconstruct_path came_from fuel pd.1 ++ [pd.2]

/-- `self.directions = [NORTH, EAST, SOUTH, WEST]`. -/
def agentDirections : List Direction := [.NORTH, .EAST, .SOUTH, .WEST]

/-- The `for next_dir in self.directions` body of `a_star_pathfind` (lines
258-297): skip closed, unmapped, unrecorded-delta and unsafe neighbors,
then relax.  `self.map[current_pos]` raises `KeyError` when the current
position (necessarily the start) is not in the map, modelled by `.error`;
likewise the (unreachable) missing `g_score[current_pos]`. -/
def expandDir (map : List (Position × CellKnowledge)) (target_pos : Position)
    (current_pos : Position) (st : AStarState) (next_dir : Direction) :
    Except Unit AStarState :=
  let next_pos := stepPos current_pos next_dir
  if next_pos ∈ st.closed_set then .ok st
  else if (alistFind next_pos map).isNone then .ok st
  else
    match alistFind current_pos map with
    | none => .error ()
    | some current_cell =>
      match current_cell.delta next_dir with
      | none => .ok st
      | some height_diff =>
        if |height_diff| > MAX_SAFE_HEIGHT then .ok st
        else
          match alistFind current_pos st.g_score with
          | none => .error ()
          | some gc =>
            let tentative_g_score := gc + 1
            match alistFind next_pos st.g_score with
            | some gn =>
              if tentative_g_score ≥ gn then .ok st
              else
                let fn := tentative_g_score + manhattan_distance next_pos target_pos
                let st2 := { st with
                  came_from := alistSet next_pos (current_pos, next_dir) st.came_from
                  g_score := alistSet next_pos tentative_g_score st.g_score
                  f_score := alistSet next_pos fn st.f_score }
                if next_pos ∈ st2.in_open_set then .ok st2
                else .ok { st2 with
                  open_set := (fn, next_pos) :: st2.open_set
                  in_open_set := next_pos :: st2.in_open_set }
            | none =>
              let fn := tentative_g_score + manhattan_distance next_pos target_pos
              let st2 := { st with
                came_from := alistSet next_pos (current_pos, next_dir) st.came_from
                g_score := alistSet next_pos tentative_g_score st.g_score
                f_score := alistSet next_pos fn st.f_score }
              if next_pos ∈ st2.in_open_set then .ok st2
              else .ok { st2 with
                open_set := (fn, next_pos) :: st2.open_set
                in_open_set := next_pos :: st2.in_open_set }

/-- Relax all four directions in the order of `self.directions`. -/
def expandDirs (map : List (Position × CellKnowledge)) (target_pos : Position)
    (current_pos : Position) :
    List Direction → AStarState → Except Unit AStarState
  | [], st => .ok st
  | d :: ds, st =>
    match expandDir map target_pos current_pos st d with
    | .error e => .error e
    | .ok st2 => expandDirs map target_pos current_pos ds st2

/-- The `while open_set` loop of `a_star_pathfind`.  Fuel exhaustion returns
`none`; since every position is pushed at most once, `map.length + 2`
iterations always suffice, so with that fuel the embedding agrees with the
source on every run that returns a path. -/
def aStarLoop (map : List (Position × CellKnowledge)) (target_pos : Position) :
    ℕ → AStarState → Except Unit (Option (List Direction))
  | 0, _ => .ok none
  | fuel + 1, st =>
    match st.open_set with
    | [] => .ok none
    | e :: es =>
      let m := extractMin e es
      let current_pos := m.1.2
      let st1 := { st with
        open_set := m.2
        in_open_set := setRemove st.in_open_set current_pos }
      if current_pos = target_pos then
        .ok (some (reconstruct_path st1.came_from
          ((alistFind current_pos st1.g_score).getD 0).natAbs current_pos))
      else
        let st2 := { st1 with closed_set := current_pos :: st1.closed_set }
        match expandDirs map target_pos current_pos agentDirections st2 with
        | .error e2 => .error e2
        | .ok st3 => aStarLoop map target_pos fuel st3

/-- `VacuumAgent.a_star_pathfind`: initialize the frontier with the agent's
position and run the search. -/
def VacuumAgent.a_star_pathfind (a : VacuumAgent) (target_pos : Position) :
    Except Unit (Option (List Direction)) :=
  let f0 := manhattan_distance a.position target_pos
  let st : AStarState := {
    open_set := [(f0, a.position)]
    in_open_set := [a.position]
    closed_set := []
    g_score := [(a.position, 0)]
    f_score := [(a.position, f0)]
    came_from := [] }
  aStarLoop a.map target_pos (a.map.length + 2) st

/-- The closest-dirty-cell scan of `find_path_to_dirt` (strict `<`, so the
first position among ties in iteration order wins; the set's unspecified
iteration order is determinized to list insertion order). -/
def closestDirt (from_pos : Position) : List Position → Option Position → Option Position
  | [], best => best
  | p :: ps, best =>
    match best with
    | none => closestDirt from_pos ps (some p)
    | some b =>
      if manhattan_distance from_pos p < manhattan_distance from_pos b then
        closestDirt from_pos ps (some p)
      else closestDirt from_pos ps (some b)

/-- `VacuumAgent.find_path_to_dirt`: route to the closest known dirty cell. -/
def VacuumAgent.find_path_to_dirt (a : VacuumAgent) :
    Except Unit (Option (List Direction)) :=
  match a.dirty_cells with
  | [] => .ok none
  | _ =>
    match closestDirt a.position a.dirty_cells none with
    | none => .ok none
    | some closest => a.a_star_pathfind closest

/-- `VacuumAgent.calculate_curiosity_factor`: a value in [0.1, 1.0] rising
with cleaning progress. -/
def VacuumAgent.calculate_curiosity_factor (a : VacuumAgent) : ℚ :=
  let known_cells : ℚ := a.map.length
  if known_cells = 0 then 1/2
  else
    let cleaningRate : ℚ := a.cleaned_cells.length / known_cells
    let dirtyRate : ℚ := a.dirty_cells.length / known_cells
    let curiosity := 1/10 + 9/10 * cleaningRate * (1 - dirtyRate)
    min 1 (max (1/10) curiosity)

/-- `VacuumAgent.calculate_frontier_value`: fraction of the four neighbors
not yet in the map (0 for an unmapped position). -/
def VacuumAgent.calculate_frontier_value (a : VacuumAgent) (position : Position) : ℚ :=
  if (alistFind position a.map).isNone then 0
  else
    let unknown := (agentDirections.filter
      (fun d => (alistFind (stepPos position d) a.map).isNone)).length
    (unknown : ℚ) / 4

/-- The `(3.0 - distance) * 3.0` proximity bonus summed over known dirty
cells within Manhattan distance 2 of the target position. -/
def nearbyDirtBonus (target_pos : Position) : List Position → ℚ
  | [] => 0
  | p :: ps =>
    let d := manhattan_distance target_pos p
    (if d ≤ 2 then ((3 : ℚ) - (d : ℚ)) * 3 else 0) + nearbyDirtBonus target_pos ps

/-- `VacuumAgent.calculate_move_utility`: scalar utility of moving one cell
in the given direction (large fixed penalty for missing target cells and
unsafe height deltas). -/
def VacuumAgent.calculate_move_utility (a : VacuumAgent) (env : Environment)
    (direction : Direction) : ℚ :=
  let target_pos := stepPos a.position direction
  match env.get_cell target_pos.1 target_pos.2 with
  | none => -100
  | some target_cell =>
    let rotation_cost : ℚ :=
      if direction ≠ a.direction then
        let diff0 := (direction.angle - a.direction.angle) % 360
        let diff := if diff0 > 180 then diff0 - 360 else diff0
        ((|diff| : ℤ) : ℚ) / 90 * a.settings.rotation_power
      else 0
    let unsafe_move : Bool :=
      match env.get_cell a.position.1 a.position.2 with
      | some current_cell =>
        if |current_cell.delta direction| > MAX_SAFE_HEIGHT then true else false
      | none => false
    if unsafe_move = true then -100
    else
      let u0 : ℚ := 0
      let u1 := match alistFind target_pos a.map with
        | some c => if c.dust_weight > 0 then u0 + 75 else u0
        | none => u0
      let u2 := if target_pos ∉ a.visited_cells then u1 + 30 else u1
      let u3 := u2 + nearbyDirtBonus target_pos a.dirty_cells
      let power_cost := a.settings.move_power + rotation_cost
      let u4 := u3 - power_cost * 5
      let curiosity_factor := a.calculate_curiosity_factor
      let recencyPair : ℚ × ℚ :=
        match alistFind target_pos a.last_visit_time with
        | some lv =>
          let time_since_visit : ℚ := ((a.time : ℚ) - (lv : ℚ))
          if time_since_visit < 10 then (0, 50 / (time_since_visit + 1))
          else (min 30 (time_since_visit / 5), 0)
        | none => (40, 0)
      let recency_value := recencyPair.1
      let u5 := u4 - recencyPair.2
      let frontier_value := a.calculate_frontier_value target_pos * 35
      let u6 := if frontier_value = 0 ∧ target_cell.cleaned = true then u5 - 100 else u5
      let frequencyPair : ℚ × ℚ :=
        match alistFind target_pos a.visit_count with
        | some visits => (0, 10 * ((visits : ℚ) - 1))
        | none => (35, 0)
      let frequency_value := frequencyPair.1
      let u7 := u6 - frequencyPair.2
      u7 + (recency_value + frontier_value + frequency_value) * curiosity_factor

/-- `VacuumAgent.decide_next_move`: the utility-maximal direction; Python's
`max` over the dict's insertion order `[NORTH, EAST, SOUTH, WEST]` keeps the
first maximum, so ties go to the lowest-indexed direction. -/
def VacuumAgent.decide_next_move (a : VacuumAgent) (env : Environment) :
    Direction × ℚ :=
  let best := [Direction.EAST, Direction.SOUTH, Direction.WEST].foldl
    (fun b d =>
      if a.calculate_move_utility env d > a.calculate_move_utility env b then d
      else b)
    Direction.NORTH
  (best, a.calculate_move_utility env best)

/-- Lines 471-484 of `decide_action`: if the current cell senses dirty and
is not yet marked cleaned, suck at normal pressure, re-sense, suck at heavy
pressure if still reading dirty, and mark the cell cleaned. -/
def VacuumAgent.cleanCurrentCell (a : VacuumAgent) (env : Environment) :
    VacuumAgent × Environment :=
  let s1 := a.sense_dust env .current
  let dirty_now : Bool := match s1.2 with
    | some pd => if pd.2 > 0 then true else false
    | none => false
  if dirty_now = true ∧ s1.1.position ∉ s1.1.cleaned_cells then
    let n := s1.1.suck_dust env .normal
    let s2 := n.1.sense_dust n.2 .current
    let still_dirty : Bool := match s2.2 with
      | some pd => if pd.2 > 0 then true else false
      | none => false
    let h := if still_dirty = true then s2.1.suck_dust n.2 .heavy else (s2.1, n.2)
    ({ h.1 with cleaned_cells := setAdd h.1.cleaned_cells h.1.position }, h.2)
  else (s1.1, env)

/-- The route-following step of `decide_action` (lines 486-499): rotate
toward the first queued direction, or move forward and on success consume
that step, on failure discard the whole route. -/
def VacuumAgent.followCurrentPath (a : VacuumAgent) (env : Environment)
    (next_direction : Direction) (rest : List Direction) :
    VacuumAgent × Environment :=
  if next_direction ≠ a.direction then (a.rotate next_direction, env)
  else
    let m := a.move_forward env
    if m.2 then ({ m.1 with current_path := rest }, env)
    else ({ m.1 with current_path := [] }, env)

/-- The exploration tail of `decide_action` (lines 512-522): score the four
headings, idle below the activation threshold, otherwise rotate toward or
move along the best heading. -/
def VacuumAgent.utilityMove (a : VacuumAgent) (env : Environment) :
    VacuumAgent × Environment :=
  let bd := a.decide_next_move env
  if bd.2 < 50 then (a, env)
  else if bd.1 ≠ a.direction then (a.rotate bd.1, env)
  else ((a.move_forward env).1, env)

/-- Lines 486-522 of `decide_action`: the part after sensing and cleaning.
If a route is active, follow it; otherwise, when dirty cells are known and
curiosity is below 0.7, route to the nearest dirt and (through `recurse`)
re-enter the decision logic; otherwise take the utility-selected action.
An empty freshly computed path is falsy in Python (`if path:`), hence the
`path = []` test. -/
def VacuumAgent.decideActionTail
    (recurse : VacuumAgent → Environment → Except Unit (VacuumAgent × Environment))
    (a2 : VacuumAgent) (env2 : Environment) :
    Except Unit (VacuumAgent × Environment) :=
  match a2.current_path with
  | next_direction :: rest =>
    .ok (a2.followCurrentPath env2 next_direction rest)
  | [] =>
    let curiosity_factor := a2.calculate_curiosity_factor
    let tryRoute := a2.dirty_cells ≠ [] ∧ curiosity_factor < 7/10
    if tryRoute then
      match a2.find_path_to_dirt with
      | .error e => .error e
      | .ok (some path) =>
        if path = [] then .ok (a2.utilityMove env2)
        else recurse { a2 with current_path := path } env2
      | .ok none => .ok (a2.utilityMove env2)
    else .ok (a2.utilityMove env2)

/-- `VacuumAgent.decide_action` with explicit re-entry fuel.  The source
re-enters itself once after installing a freshly computed route; the fresh
route is nonempty, so the re-entry always takes the route-following branch
and recursion depth 2 is exact.  Fuel 0 is therefore unreachable from
`decide_action`. -/
def VacuumAgent.decideActionFuel :
    ℕ → VacuumAgent → Environment → Except Unit (VacuumAgent × Environment)
  | 0, a, env => .ok (a, env)
  | fuel + 1, a, env =>
    let a1 := a.update_memory env
    let ce := a1.cleanCurrentCell env
    VacuumAgent.decideActionTail (VacuumAgent.decideActionFuel fuel) ce.1 ce.2

/-- `VacuumAgent.decide_action`: one full decision tick. -/
def VacuumAgent.decide_action (a : VacuumAgent) (env : Environment) :
    Except Unit (VacuumAgent × Environment) :=
  VacuumAgent.decideActionFuel 2 a env

/-- Index of a direction in the canonical order `[NORTH, EAST, SOUTH, WEST]`
(the insertion order of the utilities dict in `decide_next_move`). -/
def dirIndex : Direction → ℕ
  | .NORTH => 0
  | .EAST => 1
  | .SOUTH => 2
  | .WEST => 3

/-- The position reached from `p0` by following a list of directions. -/
def followTo (p0 : Position) : List Direction → Position
  | [] => p0
  | d :: ds => followTo (stepPos p0 d) ds

/-- Safety of a route through the agent's map, starting at `p0`: every edge
has its destination present in the map, and the source cell's recorded
height delta for the traversal direction has magnitude at most
`MAX_SAFE_HEIGHT`. -/
def SafeRoute (m : List (Position × CellKnowledge)) : Position → List Direction → Prop
  | _, [] => True
  | p0, d :: ds =>
    (alistFind (stepPos p0 d) m).isSome ∧
    (∃ c h, alistFind p0 m = some c ∧ c.delta d = some h ∧ |h| ≤ MAX_SAFE_HEIGHT) ∧
    SafeRoute m (stepPos p0 d) ds

/-- A sequence of decision ticks (`Main.py` runs one `decide_action` per
tick of the simulation loop). -/
def iterateTicks : ℕ → VacuumAgent → Environment → Except Unit (VacuumAgent × Environment)
  | 0, a, env => .ok (a, env)
  | n + 1, a, env => (a.decide_action env).bind (fun pe => iterateTicks n pe.1 pe.2)

/-- Non-negativity of every configured energy rate that an action charges. -/
def RatesNonneg (st : VacuumSettings) : Prop :=
  0 ≤ st.rotation_power ∧ 0 ≤ st.move_power ∧ 0 ≤ st.normal_vacuum_power ∧
  0 ≤ st.heavy_vacuum_power ∧ 0 ≤ st.sensor_power

/-- Sample settings (all rates 1) used by the concrete scenarios below. -/
def sampleSettings : VacuumSettings := ⟨100, 1, 1, 1, 1, 1, 1, 1⟩

/-- A one-cell environment whose single cell `(0,0)` carries dust weight 2:
normal suction (capacity 1) cannot clean it, heavy suction (capacity 5)
can. -/
def oneCellEnv : Environment :=
  ⟨[(((0 : ℤ), (0 : ℤ)), ⟨0, 0, 0, 0, "", 2, false⟩)]⟩

/-- The agent state after one full `decide_action` tick of the initial
agent on `oneCellEnv` (the initial agent if the tick raised, which it does
not). -/
def oneCellTick : VacuumAgent :=
  match (VacuumAgent.init sampleSettings).decide_action oneCellEnv with
  | .ok pe => pe.1
  | .error _ => VacuumAgent.init sampleSettings

/-- A 1-by-2 environment (cells `(0,0)` and `(0,1)`), both clean and flat:
used by the route-following scenarios. -/
def twoCellEnv : Environment :=
  ⟨[(((0 : ℤ), (0 : ℤ)), ⟨0, 0, 0, 0, "", 0, false⟩),
    (((0 : ℤ), (1 : ℤ)), ⟨0, 0, 0, 0, "", 0, false⟩)]⟩

/-- An agent holding an active one-step route `[NORTH]` while already
facing NORTH. -/
def routeAgent : VacuumAgent :=
  { VacuumAgent.init sampleSettings with current_path := [.NORTH] }

/-- A two-cell flat map (`(0,0)` and `(0,1)`, all deltas 0) for the router
witnesses. -/
def flatTwoMap : List (Position × CellKnowledge) :=
  [(((0 : ℤ), (0 : ℤ)), ⟨0, true, some 0, some 0, some 0, some 0⟩),
   (((0 : ℤ), (1 : ℤ)), ⟨2, false, some 0, some 0, some 0, some 0⟩)]

/-- An agent at `(0,0)` knowing the two-cell flat map. -/
def flatTwoAgent : VacuumAgent :=
  { VacuumAgent.init sampleSettings with map := flatTwoMap }

/-- Whether `sense_dust` reuses a cached map reading (and therefore charges
nothing): true exactly when the looked-up position is already in the map
(map entries always carry a dust weight), or the sensor argument has no
relative movement vector. -/
def senseDustCached (a : VacuumAgent) (sp : SensorPosition) : Bool :=
  match sp with
  | .current => (alistFind a.position a.map).isSome
  | sp2 =>
    match a.direction.get_relative_position sp2 with
    | none => true
    | some mv => (alistFind (a.position.1 + mv.1, a.position.2 + mv.2) a.map).isSome

/-- The map entry recorded for `(0,0)` after sensing `oneCellEnv` there. -/
def dustyKnowledge : CellKnowledge := ⟨2, false, some 0, some 0, none, some 0⟩

/-- An agent at `(0,0)` whose map caches 2 units of dust at its own
position (the state of the initial agent right after `update_memory` on
`oneCellEnv`, ignoring bookkeeping fields). -/
def dustyAgent : VacuumAgent :=
  { VacuumAgent.init sampleSettings with
      map := [(((0 : ℤ), (0 : ℤ)), dustyKnowledge)]
      dirty_cells := [((0 : ℤ), (0 : ℤ))] }

/-- The predecessor-link and g-score bookkeeping invariant of an A* run
from `src` over map `m`: every recorded link is a one-step, in-map,
safe-height edge whose source has a strictly smaller non-negative g-score;
`src` has g-score 0 and no link; every scored position is `src` or linked;
and every heap entry's position is scored. -/
def CameOk (m : List (Position × CellKnowledge)) (src : Position)
    (st : AStarState) : Prop :=
  (∀ p q d, alistFind p st.came_from = some (q, d) →
    p = stepPos q d ∧ (alistFind p m).isSome = true ∧
      (∃ c h, alistFind q m = some c ∧ c.delta d = some h ∧
        |h| ≤ MAX_SAFE_HEIGHT) ∧
      ∃ gq gp, alistFind q st.g_score = some gq ∧
        alistFind p st.g_score = some gp ∧ gq < gp) ∧
  alistFind src st.came_from = none ∧
  (∀ p gp, alistFind p st.g_score = some gp →
    0 ≤ gp ∧ (p = src ∨ (alistFind p st.came_from).isSome = true)) ∧
  alistFind src st.g_score = some 0 ∧
  ∀ f p, (f, p) ∈ st.open_set → (alistFind p st.g_score).isSome = true

/-- Membership in the axis-aligned rectangle spanned by `a` and `tgt`
(the set of positions on some Manhattan-shortest path from `a` to
`tgt`). -/
def coneMem (tgt a w : Position) : Prop :=
  min a.1 tgt.1 ≤ w.1 ∧ w.1 ≤ max a.1 tgt.1 ∧
  min a.2 tgt.2 ≤ w.2 ∧ w.2 ≤ max a.2 tgt.2

/-- Membership in the `N`-by-`N` grid. -/
def inGrid (N : ℤ) (p : Position) : Prop :=
  0 ≤ p.1 ∧ p.1 < N ∧ 0 ≤ p.2 ∧ p.2 < N

/-- The run invariant of `a_star_pathfind` on a flat fully mapped grid:
the predecessor bookkeeping is sound (`CameOk`); every g-score belongs to
a mapped position and dominates the true distance from the source; every
heap entry dominates its position's g-score plus the Manhattan heuristic;
heap positions are tracked by `in_open_set`, are distinct, and are not
closed; tracked and closed positions are scored; the closed list is
duplicate-free; and the heap holds an entry at exactly the f-score
`manhattan_distance src tgt` whose position's whole cone toward the target
is still unscored. -/
def AStarInv (m : List (Position × CellKnowledge)) (src tgt : Position)
    (st : AStarState) : Prop :=
  CameOk m src st ∧
  (∀ p gp, alistFind p st.g_score = some gp →
    (alistFind p m).isSome = true ∧ manhattan_distance src p ≤ gp) ∧
  (∀ f p, (f, p) ∈ st.open_set → ∃ gp, alistFind p st.g_score = some gp ∧
    gp + manhattan_distance p tgt ≤ f) ∧
  (∀ f p, (f, p) ∈ st.open_set → p ∈ st.in_open_set) ∧
  (st.open_set.map Prod.snd).Nodup ∧
  (∀ p, p ∈ st.in_open_set → (alistFind p st.g_score).isSome = true) ∧
  (∀ p, p ∈ st.closed_set → (alistFind p st.g_score).isSome = true) ∧
  st.closed_set.Nodup ∧
  (∀ f p, (f, p) ∈ st.open_set → p ∉ st.closed_set) ∧
  ∃ a, (manhattan_distance src tgt, a) ∈ st.open_set ∧
    ∀ w, coneMem tgt a w → w ≠ a → alistFind w st.g_score = none

/-- A flat, fully known 2-by-2 map (all four cells present, all height
deltas recorded as zero): the concrete grid of the router-optimality
witness. -/
def flatFourMap : List (Position × CellKnowledge) :=
  [(((0 : ℤ), (0 : ℤ)), ⟨0, true, some 0, some 0, some 0, some 0⟩),
   (((0 : ℤ), (1 : ℤ)), ⟨0, true, some 0, some 0, some 0, some 0⟩),
   (((1 : ℤ), (0 : ℤ)), ⟨0, true, some 0, some 0, some 0, some 0⟩),
   (((1 : ℤ), (1 : ℤ)), ⟨0, true, some 0, some 0, some 0, some 0⟩)]

/-- An agent at `(0,0)` knowing the flat 2-by-2 map. -/
def flatFourAgent : VacuumAgent :=
  { VacuumAgent.init sampleSettings with map := flatFourMap }

/-- A one-cell environment whose cell `(0,0)` records a northward height
delta of 4, exceeding `MAX_SAFE_HEIGHT`: used by the safety-penalty
witness. -/
def cliffEnv : Environment :=
  ⟨[(((0 : ℤ), (0 : ℤ)), ⟨0, 0, 4, 0, "", 0, false⟩)]⟩

/-- The agent state after `update_memory` of the initial agent on
`oneCellEnv`: one sensed cell with dust 2, classified dirty, 7 sensing
charges. -/
def c1AfterUpdate : VacuumAgent :=
  ⟨(0, 0), .NORTH, sampleSettings, 7, [], [(0, 0)],
    [(((0 : ℤ), (0 : ℤ)), dustyKnowledge)], [(0, 0)], [((0, 0), 1)],
    [((0, 0), 1)], 1, []⟩

/-- The agent state after the controller's clean step on `c1AfterUpdate`:
both suction charges taken and the position marked cleaned, while the dirty
set (and the stale map) are untouched. -/
def c1AfterClean : VacuumAgent :=
  ⟨(0, 0), .NORTH, sampleSettings, 9, [(0, 0)], [(0, 0)],
    [(((0 : ℤ), (0 : ℤ)), dustyKnowledge)], [(0, 0)], [((0, 0), 1)],
    [((0, 0), 1)], 1, []⟩

/-- The environment after the clean step: the heavy suction zeroed the
cell. -/
def c1EnvAfter : Environment :=
  ⟨[(((0 : ℤ), (0 : ℤ)), ⟨0, 0, 0, 0, "", 0, true⟩)]⟩

theorem alistFind_set_self {α : Type} (k : Position) (v : α) (l : List (Position × α)) :
    alistFind k (alistSet k v l) = some v := by
  induction l with
  | nil => simp [alistFind, alistSet]
  | cons hd tl ih =>
    obtain ⟨k2, w⟩ := hd
    by_cases h : k2 = k
    · simp [alistFind, alistSet, h]
    · simp [alistFind, alistSet, h, ih]

theorem alistFind_set_ne {α : Type} (k k2 : Position) (v : α) (l : List (Position × α))
    (h : k2 ≠ k) : alistFind k2 (alistSet k v l) = alistFind k2 l := by
  induction l with
  | nil => simp [alistFind, alistSet, fun hh => h hh.symm ∘ Eq.symm, Ne.symm h]
  | cons hd tl ih =>
    obtain ⟨k3, w⟩ := hd
    by_cases h3 : k3 = k
    · subst h3
      simp [alistFind, alistSet, Ne.symm h]
    · simp only [alistSet, if_neg h3, alistFind]
      by_cases h4 : k3 = k2 <;> simp [h4, ih]

/-- C2 counterexample: with 2 units of dust and suction capacity 1
(capacity strictly below the remaining dust), `get_sucked` leaves the dust
weight at 2 — it is not reduced by the capacity to 1 as the claim states. -/
theorem get_sucked_no_partial_reduction :
    ((oneCellEnv.get_sucked 0 0 1).get_cell 0 0).map EnvCell.dust_weight = some 2 ∧
      (2 : ℚ) ≠ 2 - 1 := by
  constructor
  · have : ¬ ((0 : ℚ) ≥ 2 - 1) := by norm_num
    simp [oneCellEnv, Environment.get_sucked, Environment.get_cell, alistFind, this]
  · norm_num

/-- C2 (amended): `get_sucked` zeroes the cell's dust weight and sets the
cleaned flag exactly when the capacity meets or exceeds the remaining
dust; when the capacity is strictly below the remaining dust it leaves the
environment entirely unchanged (no partial reduction). -/
theorem get_sucked_spec (env : Environment) (x y : ℤ) (pressure : ℚ)
    (cell : EnvCell) (h : env.get_cell x y = some cell) :
    (cell.dust_weight - pressure ≤ 0 →
      env.get_sucked x y pressure =
        ⟨alistSet (x, y) { cell with dust_weight := 0, cleaned := true } env.grid⟩) ∧
    (0 < cell.dust_weight - pressure → env.get_sucked x y pressure = env) := by
  unfold Environment.get_sucked
  rw [show alistFind (x, y) env.grid = some cell from h]
  constructor
  · intro hle
    simp [ge_iff_le, hle]
  · intro hlt
    have : ¬ ((0 : ℚ) ≥ cell.dust_weight - pressure) := by linarith
    simp [this]

/-- Witness for `get_sucked_spec` at the concrete one-cell environment. -/
theorem get_sucked_spec_witness :
    oneCellEnv.get_cell 0 0 = some ⟨0, 0, 0, 0, "", 2, false⟩ ∧
      (0 < (⟨0, 0, 0, 0, "", 2, false⟩ : EnvCell).dust_weight - 1 →
        oneCellEnv.get_sucked 0 0 1 = oneCellEnv) := by
  refine ⟨by simp [oneCellEnv, Environment.get_cell, alistFind], ?_⟩
  exact (get_sucked_spec oneCellEnv 0 0 1 _
    (by simp [oneCellEnv, Environment.get_cell, alistFind])).2

/-- C7: invoking `suck_dust` (at either pressure) on a cell already in the
cleaned set charges no suction energy and leaves both the agent and the
environment unchanged. -/
theorem suck_dust_idempotent_on_cleaned (a : VacuumAgent) (env : Environment)
    (pressure : Pressure) (h : a.position ∈ a.cleaned_cells) :
    a.suck_dust env pressure = (a, env) := by
  simp [VacuumAgent.suck_dust, h]

/-- Witness for `suck_dust_idempotent_on_cleaned`: a concrete agent whose
current position is marked cleaned. -/
theorem suck_dust_idempotent_on_cleaned_witness :
    ((0 : ℤ), (0 : ℤ)) ∈
        ({ VacuumAgent.init sampleSettings with
            cleaned_cells := [((0 : ℤ), (0 : ℤ))] } : VacuumAgent).cleaned_cells ∧
      ({ VacuumAgent.init sampleSettings with
          cleaned_cells := [((0 : ℤ), (0 : ℤ))] } : VacuumAgent).suck_dust oneCellEnv
          .heavy =
        ({ VacuumAgent.init sampleSettings with
            cleaned_cells := [((0 : ℤ), (0 : ℤ))] }, oneCellEnv) := by
  refine ⟨by decide, ?_⟩
  exact suck_dust_idempotent_on_cleaned _ _ _ (by decide)

/-- C10: sensing charges energy even when it yields no reading.
`sense_height` adds one sensing-energy unit unconditionally (including
when it returns `none`), and `sense_dust` for a relative heading whose
uncached target cell is outside the grid returns `none` yet still adds one
sensing-energy unit; neither updates the agent's map. -/
theorem sensing_charges_even_without_reading :
    (∀ (a : VacuumAgent) (env : Environment) (sp : SensorPosition),
      (a.sense_height env sp).1.power_consumed =
          a.power_consumed + a.settings.sensor_power ∧
        (a.sense_height env sp).1.map = a.map) ∧
    (∀ (a : VacuumAgent) (env : Environment) (sp : SensorPosition) (mv : ℤ × ℤ),
      a.direction.get_relative_position sp = some mv →
      alistFind (a.position.1 + mv.1, a.position.2 + mv.2) a.map = none →
      env.get_cell (a.position.1 + mv.1) (a.position.2 + mv.2) = none →
      (a.sense_dust env sp).2 = none ∧
        (a.sense_dust env sp).1.power_consumed =
          a.power_consumed + a.settings.sensor_power ∧
        (a.sense_dust env sp).1.map = a.map) := by
  constructor
  · intro a env sp
    unfold VacuumAgent.sense_height
    cases h : env.get_cell a.position.1 a.position.2 <;> cases sp <;> simp
  · intro a env sp mv hrel hcache hmiss
    cases sp with
    | current => simp [Direction.get_relative_position] at hrel
    | forward =>
      simp only [Direction.get_relative_position, Option.some.injEq] at hrel
      subst hrel
      simp [VacuumAgent.sense_dust, Direction.get_relative_position, hcache, hmiss]
    | left =>
      simp only [Direction.get_relative_position, Option.some.injEq] at hrel
      subst hrel
      simp [VacuumAgent.sense_dust, Direction.get_relative_position, hcache, hmiss]
    | right =>
      simp only [Direction.get_relative_position, Option.some.injEq] at hrel
      subst hrel
      simp [VacuumAgent.sense_dust, Direction.get_relative_position, hcache, hmiss]

/-- Witness for `sensing_charges_even_without_reading`: on the one-cell
environment the forward sensor target `(0,1)` is out of the grid, yet one
sensing unit is charged. -/
theorem sensing_charges_witness :
    ((VacuumAgent.init sampleSettings).sense_dust oneCellEnv .forward).2 = none ∧
      ((VacuumAgent.init sampleSettings).sense_dust oneCellEnv .forward).1.power_consumed =
        (VacuumAgent.init sampleSettings).power_consumed +
          (VacuumAgent.init sampleSettings).settings.sensor_power := by
  have h := sensing_charges_even_without_reading.2 (VacuumAgent.init sampleSettings)
    oneCellEnv .forward (0, 1) rfl (by decide)
    (by simp [oneCellEnv, Environment.get_cell, alistFind, VacuumAgent.init]; decide)
  exact ⟨h.1, h.2.1⟩

/-- C9: `decide_next_move` returns a direction of maximal utility together
with that utility, and among equal-utility directions it returns the
lowest-indexed one in the canonical order `[NORTH, EAST, SOUTH, WEST]`. -/
theorem decide_next_move_max (a : VacuumAgent) (env : Environment) :
    (a.decide_next_move env).2 =
        a.calculate_move_utility env (a.decide_next_move env).1 ∧
      (∀ d, a.calculate_move_utility env d ≤ (a.decide_next_move env).2) ∧
      ∀ d, a.calculate_move_utility env d = (a.decide_next_move env).2 →
        dirIndex (a.decide_next_move env).1 ≤ dirIndex d := by
  simp only [VacuumAgent.decide_next_move, List.foldl]
  split_ifs with h1 h2 h3 <;>
    refine ⟨trivial, fun d => ?_, fun d heq => ?_⟩ <;>
    cases d <;>
    first
      | trivial
      | linarith

/-- Witness for `decide_next_move_max`: on the one-cell environment every
heading scores -100, EAST ties with the returned maximum, and the returned
direction NORTH has the lower index. -/
theorem decide_next_move_max_witness :
    (VacuumAgent.init sampleSettings).calculate_move_utility oneCellEnv .EAST =
        ((VacuumAgent.init sampleSettings).decide_next_move oneCellEnv).2 ∧
      dirIndex ((VacuumAgent.init sampleSettings).decide_next_move oneCellEnv).1 ≤
        dirIndex .EAST := by
  have hu : ∀ d, (VacuumAgent.init sampleSettings).calculate_move_utility oneCellEnv d
      = -100 := by
    intro d
    cases d <;>
      norm_num [VacuumAgent.calculate_move_utility, Environment.get_cell, oneCellEnv,
        alistFind, stepPos, VacuumAgent.init, Direction.movement_vector, Prod.ext_iff]
  have hdn : ((VacuumAgent.init sampleSettings).decide_next_move oneCellEnv).2 = -100 := by
    simp [VacuumAgent.decide_next_move, List.foldl, hu]
  have htie : (VacuumAgent.init sampleSettings).calculate_move_utility oneCellEnv .EAST =
      ((VacuumAgent.init sampleSettings).decide_next_move oneCellEnv).2 := by
    rw [hu, hdn]
  exact ⟨htie,
    (decide_next_move_max (VacuumAgent.init sampleSettings) oneCellEnv).2.2 .EAST htie⟩

/-- C5: when the clean branch runs (cached dust positive, cell not yet
marked cleaned), the re-sense after the normal-pressure suction returns
the cached pre-suction dust value from the map, so the heavy-pressure
suction is also applied and both suction rates are charged; the map is
never updated by cleaning. -/
theorem clean_branch_always_heavy (a : VacuumAgent) (env : Environment)
    (cell : CellKnowledge) (hc : alistFind a.position a.map = some cell)
    (hd : 0 < cell.dust_weight) (hcl : a.position ∉ a.cleaned_cells) :
    (((a.suck_dust env .normal).1).sense_dust (a.suck_dust env .normal).2 .current).2 =
        some (a.position, cell.dust_weight) ∧
      (a.cleanCurrentCell env).1.power_consumed =
        a.power_consumed + a.settings.normal_vacuum_power +
          a.settings.heavy_vacuum_power ∧
      (a.cleanCurrentCell env).2 =
        (env.get_sucked a.position.1 a.position.2
            (MAX_SUCTION_WEIGHT .normal)).get_sucked a.position.1 a.position.2
          (MAX_SUCTION_WEIGHT .heavy) ∧
      (a.cleanCurrentCell env).1.map = a.map := by
  refine ⟨?_, ?_, ?_, ?_⟩ <;>
    simp [VacuumAgent.cleanCurrentCell, VacuumAgent.sense_dust, VacuumAgent.suck_dust,
      hc, hd, hcl, VacuumSettings.vacuum_power]

/-- Witness for `clean_branch_always_heavy` at the concrete dusty agent on
the one-cell environment. -/
theorem clean_branch_always_heavy_witness :
    alistFind dustyAgent.position dustyAgent.map = some dustyKnowledge ∧
      (0 : ℚ) < dustyKnowledge.dust_weight ∧
      dustyAgent.position ∉ dustyAgent.cleaned_cells ∧
      (dustyAgent.cleanCurrentCell oneCellEnv).1.power_consumed =
        dustyAgent.power_consumed + dustyAgent.settings.normal_vacuum_power +
          dustyAgent.settings.heavy_vacuum_power := by
  have h1 : alistFind dustyAgent.position dustyAgent.map = some dustyKnowledge := by
    simp [dustyAgent, dustyKnowledge, alistFind, VacuumAgent.init]
  have h2 : (0 : ℚ) < dustyKnowledge.dust_weight := by norm_num [dustyKnowledge]
  have h3 : dustyAgent.position ∉ dustyAgent.cleaned_cells := by
    simp [dustyAgent, VacuumAgent.init]
  exact ⟨h1, h2, h3,
    (clean_branch_always_heavy dustyAgent oneCellEnv dustyKnowledge h1 h2 h3).2.1⟩


theorem sense_dust_position (a : VacuumAgent) (env : Environment) (sp : SensorPosition) :
    (a.sense_dust env sp).1.position = a.position := by
  unfold VacuumAgent.sense_dust; cases sp <;> dsimp only <;> (repeat' split) <;> rfl

theorem sense_dust_direction (a : VacuumAgent) (env : Environment) (sp : SensorPosition) :
    (a.sense_dust env sp).1.direction = a.direction := by
  unfold VacuumAgent.sense_dust; cases sp <;> dsimp only <;> (repeat' split) <;> rfl

theorem sense_dust_current_path (a : VacuumAgent) (env : Environment) (sp : SensorPosition) :
    (a.sense_dust env sp).1.current_path = a.current_path := by
  unfold VacuumAgent.sense_dust; cases sp <;> dsimp only <;> (repeat' split) <;> rfl

theorem sense_dust_settings (a : VacuumAgent) (env : Environment) (sp : SensorPosition) :
    (a.sense_dust env sp).1.settings = a.settings := by
  unfold VacuumAgent.sense_dust; cases sp <;> dsimp only <;> (repeat' split) <;> rfl

theorem sense_dust_map (a : VacuumAgent) (env : Environment) (sp : SensorPosition) :
    (a.sense_dust env sp).1.map = a.map := by
  unfold VacuumAgent.sense_dust; cases sp <;> dsimp only <;> (repeat' split) <;> rfl

theorem sense_dust_cleaned_cells (a : VacuumAgent) (env : Environment) (sp : SensorPosition) :
    (a.sense_dust env sp).1.cleaned_cells = a.cleaned_cells := by
  unfold VacuumAgent.sense_dust; cases sp <;> dsimp only <;> (repeat' split) <;> rfl

theorem sense_dust_dirty_cells (a : VacuumAgent) (env : Environment) (sp : SensorPosition) :
    (a.sense_dust env sp).1.dirty_cells = a.dirty_cells := by
  unfold VacuumAgent.sense_dust; cases sp <;> dsimp only <;> (repeat' split) <;> rfl

theorem sense_height_position (a : VacuumAgent) (env : Environment) (sp : SensorPosition) :
    (a.sense_height env sp).1.position = a.position := by
  unfold VacuumAgent.sense_height; (repeat' split) <;> rfl

theorem sense_height_direction (a : VacuumAgent) (env : Environment) (sp : SensorPosition) :
    (a.sense_height env sp).1.direction = a.direction := by
  unfold VacuumAgent.sense_height; (repeat' split) <;> rfl

theorem sense_height_current_path (a : VacuumAgent) (env : Environment) (sp : SensorPosition) :
    (a.sense_height env sp).1.current_path = a.current_path := by
  unfold VacuumAgent.sense_height; (repeat' split) <;> rfl

theorem sense_height_settings (a : VacuumAgent) (env : Environment) (sp : SensorPosition) :
    (a.sense_height env sp).1.settings = a.settings := by
  unfold VacuumAgent.sense_height; (repeat' split) <;> rfl

theorem sense_height_cleaned_cells (a : VacuumAgent) (env : Environment) (sp : SensorPosition) :
    (a.sense_height env sp).1.cleaned_cells = a.cleaned_cells := by
  unfold VacuumAgent.sense_height; (repeat' split) <;> rfl

theorem sense_height_dirty_cells (a : VacuumAgent) (env : Environment) (sp : SensorPosition) :
    (a.sense_height env sp).1.dirty_cells = a.dirty_cells := by
  unfold VacuumAgent.sense_height; (repeat' split) <;> rfl

theorem suck_dust_position (a : VacuumAgent) (env : Environment) (pr : Pressure) :
    (a.suck_dust env pr).1.position = a.position := by
  unfold VacuumAgent.suck_dust; (repeat' split) <;> rfl

theorem suck_dust_direction (a : VacuumAgent) (env : Environment) (pr : Pressure) :
    (a.suck_dust env pr).1.direction = a.direction := by
  unfold VacuumAgent.suck_dust; (repeat' split) <;> rfl

theorem suck_dust_current_path (a : VacuumAgent) (env : Environment) (pr : Pressure) :
    (a.suck_dust env pr).1.current_path = a.current_path := by
  unfold VacuumAgent.suck_dust; (repeat' split) <;> rfl

theorem suck_dust_settings (a : VacuumAgent) (env : Environment) (pr : Pressure) :
    (a.suck_dust env pr).1.settings = a.settings := by
  unfold VacuumAgent.suck_dust; (repeat' split) <;> rfl

theorem suck_dust_map (a : VacuumAgent) (env : Environment) (pr : Pressure) :
    (a.suck_dust env pr).1.map = a.map := by
  unfold VacuumAgent.suck_dust; (repeat' split) <;> rfl

theorem suck_dust_cleaned_cells (a : VacuumAgent) (env : Environment) (pr : Pressure) :
    (a.suck_dust env pr).1.cleaned_cells = a.cleaned_cells := by
  unfold VacuumAgent.suck_dust; (repeat' split) <;> rfl

theorem suck_dust_dirty_cells (a : VacuumAgent) (env : Environment) (pr : Pressure) :
    (a.suck_dust env pr).1.dirty_cells = a.dirty_cells := by
  unfold VacuumAgent.suck_dust; (repeat' split) <;> rfl

theorem classifyDust_position (a : VacuumAgent) (p : Position) (dw : ℚ) :
    (a.classifyDust p dw).position = a.position := by
  unfold VacuumAgent.classifyDust; (repeat' split) <;> rfl

theorem classifyDust_direction (a : VacuumAgent) (p : Position) (dw : ℚ) :
    (a.classifyDust p dw).direction = a.direction := by
  unfold VacuumAgent.classifyDust; (repeat' split) <;> rfl

theorem classifyDust_current_path (a : VacuumAgent) (p : Position) (dw : ℚ) :
    (a.classifyDust p dw).current_path = a.current_path := by
  unfold VacuumAgent.classifyDust; (repeat' split) <;> rfl

theorem classifyDust_settings (a : VacuumAgent) (p : Position) (dw : ℚ) :
    (a.classifyDust p dw).settings = a.settings := by
  unfold VacuumAgent.classifyDust; (repeat' split) <;> rfl

theorem classifyDust_map (a : VacuumAgent) (p : Position) (dw : ℚ) :
    (a.classifyDust p dw).map = a.map := by
  unfold VacuumAgent.classifyDust; (repeat' split) <;> rfl

theorem classifyDust_power (a : VacuumAgent) (p : Position) (dw : ℚ) :
    (a.classifyDust p dw).power_consumed = a.power_consumed := by
  unfold VacuumAgent.classifyDust; (repeat' split) <;> rfl

theorem recordDelta_position (a : VacuumAgent) (d : Direction) (o : Option ℤ) :
    (a.recordDelta d o).position = a.position := by
  unfold VacuumAgent.recordDelta; (repeat' split) <;> rfl

theorem recordDelta_direction (a : VacuumAgent) (d : Direction) (o : Option ℤ) :
    (a.recordDelta d o).direction = a.direction := by
  unfold VacuumAgent.recordDelta; (repeat' split) <;> rfl

theorem recordDelta_current_path (a : VacuumAgent) (d : Direction) (o : Option ℤ) :
    (a.recordDelta d o).current_path = a.current_path := by
  unfold VacuumAgent.recordDelta; (repeat' split) <;> rfl

theorem recordDelta_settings (a : VacuumAgent) (d : Direction) (o : Option ℤ) :
    (a.recordDelta d o).settings = a.settings := by
  unfold VacuumAgent.recordDelta; (repeat' split) <;> rfl

theorem recordDelta_power (a : VacuumAgent) (d : Direction) (o : Option ℤ) :
    (a.recordDelta d o).power_consumed = a.power_consumed := by
  unfold VacuumAgent.recordDelta; (repeat' split) <;> rfl

theorem senseHeights_position (a : VacuumAgent) (env : Environment) :
    (a.senseHeights env).position = a.position := by
  unfold VacuumAgent.senseHeights
  simp [recordDelta_position, sense_height_position]

theorem senseHeights_direction (a : VacuumAgent) (env : Environment) :
    (a.senseHeights env).direction = a.direction := by
  unfold VacuumAgent.senseHeights
  simp [recordDelta_direction, sense_height_direction]

theorem senseHeights_current_path (a : VacuumAgent) (env : Environment) :
    (a.senseHeights env).current_path = a.current_path := by
  unfold VacuumAgent.senseHeights
  simp [recordDelta_current_path, sense_height_current_path]

theorem senseHeights_settings (a : VacuumAgent) (env : Environment) :
    (a.senseHeights env).settings = a.settings := by
  unfold VacuumAgent.senseHeights
  simp [recordDelta_settings, sense_height_settings]

theorem senseAdjacent_position (a : VacuumAgent) (env : Environment) (sp : SensorPosition) :
    (a.senseAdjacent env sp).position = a.position := by
  unfold VacuumAgent.senseAdjacent
  dsimp only
  (repeat' split) <;> simp [classifyDust_position, sense_dust_position]

theorem senseAdjacent_direction (a : VacuumAgent) (env : Environment) (sp : SensorPosition) :
    (a.senseAdjacent env sp).direction = a.direction := by
  unfold VacuumAgent.senseAdjacent
  dsimp only
  (repeat' split) <;> simp [classifyDust_direction, sense_dust_direction]

theorem senseAdjacent_current_path (a : VacuumAgent) (env : Environment) (sp : SensorPosition) :
    (a.senseAdjacent env sp).current_path = a.current_path := by
  unfold VacuumAgent.senseAdjacent
  dsimp only
  (repeat' split) <;> simp [classifyDust_current_path, sense_dust_current_path]

theorem senseAdjacent_settings (a : VacuumAgent) (env : Environment) (sp : SensorPosition) :
    (a.senseAdjacent env sp).settings = a.settings := by
  unfold VacuumAgent.senseAdjacent
  dsimp only
  (repeat' split) <;> simp [classifyDust_settings, sense_dust_settings]

theorem bumpVisitStats_position (a : VacuumAgent) :
    (a.bumpVisitStats).position = a.position := by
  unfold VacuumAgent.bumpVisitStats
  dsimp only
  (repeat' split) <;> rfl

theorem recordCurrentCell_position (a : VacuumAgent) (env : Environment) :
    (a.recordCurrentCell env).position = a.position := by
  unfold VacuumAgent.recordCurrentCell
  dsimp only
  (repeat' split) <;>
    simp [classifyDust_position, senseHeights_position, sense_dust_position]

theorem update_memory_position (a : VacuumAgent) (env : Environment) :
    (a.update_memory env).position = a.position := by
  unfold VacuumAgent.update_memory
  simp [senseAdjacent_position, recordCurrentCell_position, bumpVisitStats_position]

theorem bumpVisitStats_direction (a : VacuumAgent) :
    (a.bumpVisitStats).direction = a.direction := by
  unfold VacuumAgent.bumpVisitStats
  dsimp only
  (repeat' split) <;> rfl

theorem recordCurrentCell_direction (a : VacuumAgent) (env : Environment) :
    (a.recordCurrentCell env).direction = a.direction := by
  unfold VacuumAgent.recordCurrentCell
  dsimp only
  (repeat' split) <;>
    simp [classifyDust_direction, senseHeights_direction, sense_dust_direction]

theorem update_memory_direction (a : VacuumAgent) (env : Environment) :
    (a.update_memory env).direction = a.direction := by
  unfold VacuumAgent.update_memory
  simp [senseAdjacent_direction, recordCurrentCell_direction, bumpVisitStats_direction]

theorem bumpVisitStats_current_path (a : VacuumAgent) :
    (a.bumpVisitStats).current_path = a.current_path := by
  unfold VacuumAgent.bumpVisitStats
  dsimp only
  (repeat' split) <;> rfl

theorem recordCurrentCell_current_path (a : VacuumAgent) (env : Environment) :
    (a.recordCurrentCell env).current_path = a.current_path := by
  unfold VacuumAgent.recordCurrentCell
  dsimp only
  (repeat' split) <;>
    simp [classifyDust_current_path, senseHeights_current_path, sense_dust_current_path]

theorem update_memory_current_path (a : VacuumAgent) (env : Environment) :
    (a.update_memory env).current_path = a.current_path := by
  unfold VacuumAgent.update_memory
  simp [senseAdjacent_current_path, recordCurrentCell_current_path, bumpVisitStats_current_path]

theorem bumpVisitStats_settings (a : VacuumAgent) :
    (a.bumpVisitStats).settings = a.settings := by
  unfold VacuumAgent.bumpVisitStats
  dsimp only
  (repeat' split) <;> rfl

theorem recordCurrentCell_settings (a : VacuumAgent) (env : Environment) :
    (a.recordCurrentCell env).settings = a.settings := by
  unfold VacuumAgent.recordCurrentCell
  dsimp only
  (repeat' split) <;>
    simp [classifyDust_settings, senseHeights_settings, sense_dust_settings]

theorem update_memory_settings (a : VacuumAgent) (env : Environment) :
    (a.update_memory env).settings = a.settings := by
  unfold VacuumAgent.update_memory
  simp [senseAdjacent_settings, recordCurrentCell_settings, bumpVisitStats_settings]

theorem cleanCurrentCell_position (a : VacuumAgent) (env : Environment) :
    (a.cleanCurrentCell env).1.position = a.position := by
  unfold VacuumAgent.cleanCurrentCell
  dsimp only
  (repeat' split) <;>
    simp [suck_dust_position, sense_dust_position]

theorem cleanCurrentCell_direction (a : VacuumAgent) (env : Environment) :
    (a.cleanCurrentCell env).1.direction = a.direction := by
  unfold VacuumAgent.cleanCurrentCell
  dsimp only
  (repeat' split) <;>
    simp [suck_dust_direction, sense_dust_direction]

theorem cleanCurrentCell_current_path (a : VacuumAgent) (env : Environment) :
    (a.cleanCurrentCell env).1.current_path = a.current_path := by
  unfold VacuumAgent.cleanCurrentCell
  dsimp only
  (repeat' split) <;>
    simp [suck_dust_current_path, sense_dust_current_path]

theorem cleanCurrentCell_settings (a : VacuumAgent) (env : Environment) :
    (a.cleanCurrentCell env).1.settings = a.settings := by
  unfold VacuumAgent.cleanCurrentCell
  dsimp only
  (repeat' split) <;>
    simp [suck_dust_settings, sense_dust_settings]

theorem cleanCurrentCell_map (a : VacuumAgent) (env : Environment) :
    (a.cleanCurrentCell env).1.map = a.map := by
  unfold VacuumAgent.cleanCurrentCell
  dsimp only
  (repeat' split) <;>
    simp [suck_dust_map, sense_dust_map]

theorem rotate_direction (a : VacuumAgent) (t : Direction) :
    (a.rotate t).direction = t := rfl

theorem rotate_position (a : VacuumAgent) (t : Direction) :
    (a.rotate t).position = a.position := rfl

theorem rotate_current_path (a : VacuumAgent) (t : Direction) :
    (a.rotate t).current_path = a.current_path := rfl

theorem rotate_settings (a : VacuumAgent) (t : Direction) :
    (a.rotate t).settings = a.settings := rfl

theorem rotate_cleaned_cells (a : VacuumAgent) (t : Direction) :
    (a.rotate t).cleaned_cells = a.cleaned_cells := rfl

theorem rotate_dirty_cells (a : VacuumAgent) (t : Direction) :
    (a.rotate t).dirty_cells = a.dirty_cells := rfl

theorem rotate_map (a : VacuumAgent) (t : Direction) :
    (a.rotate t).map = a.map := rfl

theorem move_forward_spec (a : VacuumAgent) (env : Environment) :
    ((a.move_forward env).2 = true →
      (a.move_forward env).1 =
        { a with
            position := stepPos a.position a.direction
            power_consumed := a.power_consumed + a.settings.move_power }) ∧
      ((a.move_forward env).2 = false → (a.move_forward env).1 = a) ∧
      ((a.move_forward env).2 = true ↔
        (env.get_cell (stepPos a.position a.direction).1
            (stepPos a.position a.direction).2).isSome) := by
  unfold VacuumAgent.move_forward
  dsimp only
  split <;> simp_all [stepPos]

/-- Suction never changes which cells exist in the grid. -/
theorem get_sucked_get_cell_isSome (env : Environment) (x y px py : ℤ) (pr : ℚ) :
    ((env.get_sucked x y pr).get_cell px py).isSome = ((env.get_cell px py).isSome) := by
  unfold Environment.get_sucked
  split
  · rfl
  · dsimp only
    split
    · by_cases h : ((x, y) : Position) = (px, py)
      · have h1 : x = px := congrArg Prod.fst h
        have h2 : y = py := congrArg Prod.snd h
        subst h1; subst h2
        simp_all [Environment.get_cell, alistFind_set_self]
      · have h2 : ((px, py) : Position) ≠ (x, y) := fun hh => h hh.symm
        simp [Environment.get_cell, alistFind_set_ne _ _ _ _ h2]
    · rfl

/-- C8: in a tick with an active route, the controller (after the sensing
and cleaning phases, which never touch position, facing or route) takes the
route branch; if the next queued direction differs from the facing it
rotates toward it without consuming a route step, otherwise it attempts to
move forward, consuming exactly the first route step on success and
discarding the entire route (without retrying or moving) on failure. -/
theorem route_following_step (a : VacuumAgent) (env : Environment) (d : Direction)
    (rest : List Direction) (h : a.current_path = d :: rest) :
    (a.decide_action env =
        .ok ((((a.update_memory env).cleanCurrentCell env).1).followCurrentPath
          ((a.update_memory env).cleanCurrentCell env).2 d rest) ∧
      (((a.update_memory env).cleanCurrentCell env).1).position = a.position ∧
      (((a.update_memory env).cleanCurrentCell env).1).direction = a.direction ∧
      (((a.update_memory env).cleanCurrentCell env).1).current_path = d :: rest) ∧
    ∀ (b : VacuumAgent) (e2 : Environment),
      (d ≠ b.direction →
        b.followCurrentPath e2 d rest = (b.rotate d, e2) ∧
          (b.rotate d).current_path = b.current_path ∧
          (b.rotate d).direction = d ∧ (b.rotate d).position = b.position) ∧
      (d = b.direction →
        ((b.move_forward e2).2 = true →
          (b.followCurrentPath e2 d rest).1.current_path = rest ∧
            (b.followCurrentPath e2 d rest).1.position =
              stepPos b.position b.direction) ∧
        ((b.move_forward e2).2 = false →
          (b.followCurrentPath e2 d rest).1.current_path = [] ∧
            (b.followCurrentPath e2 d rest).1.position = b.position)) := by
  have hpath : (((a.update_memory env).cleanCurrentCell env).1).current_path = d :: rest := by
    rw [cleanCurrentCell_current_path, update_memory_current_path, h]
  constructor
  · refine ⟨?_, ?_, ?_, hpath⟩
    · show VacuumAgent.decideActionFuel 2 a env = _
      have hstep : VacuumAgent.decideActionFuel 2 a env =
          VacuumAgent.decideActionTail (VacuumAgent.decideActionFuel 1)
            ((a.update_memory env).cleanCurrentCell env).1
            ((a.update_memory env).cleanCurrentCell env).2 := rfl
      rw [hstep]
      unfold VacuumAgent.decideActionTail
      rw [hpath]
    · rw [cleanCurrentCell_position, update_memory_position]
    · rw [cleanCurrentCell_direction, update_memory_direction]
  · intro b e2
    constructor
    · intro hne
      unfold VacuumAgent.followCurrentPath
      rw [if_pos hne]
      exact ⟨rfl, rfl, rfl, rfl⟩
    · intro heq
      unfold VacuumAgent.followCurrentPath
      rw [if_neg (fun hh => hh heq)]
      dsimp only
      constructor
      · intro hmv
        rw [if_pos hmv]
        refine ⟨by trivial, ?_⟩
        have hmm := (move_forward_spec b e2).1 hmv
        rw [hmm]
      · intro hmv
        rw [hmv]
        simp only [Bool.false_eq_true, if_false]
        refine ⟨by trivial, ?_⟩
        have hmm := (move_forward_spec b e2).2.1 hmv
        rw [hmm]

/-- Witness for `route_following_step`: the concrete route agent holding
route `[NORTH]` on the two-cell environment moves forward and consumes its
only route step. -/
theorem route_following_step_witness :
    routeAgent.current_path = [Direction.NORTH] ∧
      Direction.NORTH = routeAgent.direction ∧
      ((routeAgent.move_forward twoCellEnv).2 = true →
        (routeAgent.followCurrentPath twoCellEnv .NORTH []).1.current_path = [] ∧
          (routeAgent.followCurrentPath twoCellEnv .NORTH []).1.position =
            stepPos routeAgent.position routeAgent.direction) := by
  refine ⟨rfl, rfl, ?_⟩
  exact (((route_following_step routeAgent twoCellEnv .NORTH [] rfl).2
    routeAgent twoCellEnv).2 rfl).1

theorem sense_dust_power (a : VacuumAgent) (env : Environment) (sp : SensorPosition) :
    (a.sense_dust env sp).1.power_consumed =
      a.power_consumed +
        (if senseDustCached a sp then 0 else a.settings.sensor_power) := by
  unfold VacuumAgent.sense_dust senseDustCached
  cases sp <;> dsimp only <;> (repeat' split) <;> simp_all

theorem sense_height_power (a : VacuumAgent) (env : Environment) (sp : SensorPosition) :
    (a.sense_height env sp).1.power_consumed =
      a.power_consumed + a.settings.sensor_power := by
  unfold VacuumAgent.sense_height
  (repeat' split) <;> rfl

theorem suck_dust_power (a : VacuumAgent) (env : Environment) (pr : Pressure) :
    (a.suck_dust env pr).1.power_consumed =
      a.power_consumed +
        (if a.position ∈ a.cleaned_cells then 0 else a.settings.vacuum_power pr) := by
  unfold VacuumAgent.suck_dust
  (repeat' split) <;> simp_all

theorem move_forward_power (a : VacuumAgent) (env : Environment) :
    (a.move_forward env).1.power_consumed =
      a.power_consumed +
        (if (env.get_cell (stepPos a.position a.direction).1
              (stepPos a.position a.direction).2).isSome
          then a.settings.move_power else 0) := by
  unfold VacuumAgent.move_forward
  dsimp only
  (repeat' split) <;> simp_all [stepPos]

theorem rotate_power_le (a : VacuumAgent) (t : Direction)
    (h : 0 ≤ a.settings.rotation_power) :
    a.power_consumed ≤ (a.rotate t).power_consumed := by
  unfold VacuumAgent.rotate
  dsimp only
  have habs : (0 : ℚ) ≤
      ((|if (t.angle - a.direction.angle) % 360 > 180 then
          (t.angle - a.direction.angle) % 360 - 360
        else (t.angle - a.direction.angle) % 360| : ℤ) : ℚ) / 90 := by
    have : (0 : ℤ) ≤ |if (t.angle - a.direction.angle) % 360 > 180 then
        (t.angle - a.direction.angle) % 360 - 360
      else (t.angle - a.direction.angle) % 360| := abs_nonneg _
    positivity
  nlinarith [mul_nonneg habs h]

theorem senseHeights_power (a : VacuumAgent) (env : Environment) :
    (a.senseHeights env).power_consumed =
      a.power_consumed + 3 * a.settings.sensor_power := by
  unfold VacuumAgent.senseHeights
  dsimp only
  simp only [recordDelta_power, sense_height_power, recordDelta_settings,
    sense_height_settings]
  ring

theorem bumpVisitStats_power (a : VacuumAgent) :
    (a.bumpVisitStats).power_consumed = a.power_consumed := by
  unfold VacuumAgent.bumpVisitStats
  dsimp only
  (repeat' split) <;> rfl

theorem recordCurrentCell_power_le (a : VacuumAgent) (env : Environment)
    (h : 0 ≤ a.settings.sensor_power) :
    a.power_consumed ≤ (a.recordCurrentCell env).power_consumed := by
  unfold VacuumAgent.recordCurrentCell
  dsimp only
  split
  · rw [sense_dust_power]
    split_ifs <;> linarith
  · rw [classifyDust_power, senseHeights_power, sense_dust_power]
    dsimp only
    rw [sense_dust_settings]
    split_ifs <;> linarith

theorem senseAdjacent_power_le (a : VacuumAgent) (env : Environment)
    (sp : SensorPosition) (h : 0 ≤ a.settings.sensor_power) :
    a.power_consumed ≤ (a.senseAdjacent env sp).power_consumed := by
  unfold VacuumAgent.senseAdjacent
  dsimp only
  (repeat' split) <;>
    first
      | (rw [sense_dust_power]; split_ifs <;> linarith)
      | (rw [classifyDust_power]; dsimp only; rw [sense_dust_power];
         split_ifs <;> linarith)

theorem senseAdjacent_settings_eq (a : VacuumAgent) (env : Environment)
    (sp : SensorPosition) : (a.senseAdjacent env sp).settings = a.settings :=
  senseAdjacent_settings a env sp

theorem update_memory_power_le (a : VacuumAgent) (env : Environment)
    (h : 0 ≤ a.settings.sensor_power) :
    a.power_consumed ≤ (a.update_memory env).power_consumed := by
  unfold VacuumAgent.update_memory
  have h1 : (a.bumpVisitStats).settings = a.settings := bumpVisitStats_settings a
  have h2 : ((a.bumpVisitStats).recordCurrentCell env).settings = a.settings := by
    rw [recordCurrentCell_settings, h1]
  have h3 : (((a.bumpVisitStats).recordCurrentCell env).senseAdjacent env
      .forward).settings = a.settings := by rw [senseAdjacent_settings, h2]
  have h4 : ((((a.bumpVisitStats).recordCurrentCell env).senseAdjacent env
      .forward).senseAdjacent env .left).settings = a.settings := by
    rw [senseAdjacent_settings, h3]
  calc a.power_consumed
      = (a.bumpVisitStats).power_consumed := (bumpVisitStats_power a).symm
    _ ≤ ((a.bumpVisitStats).recordCurrentCell env).power_consumed :=
        recordCurrentCell_power_le _ env (h1 ▸ h)
    _ ≤ _ := senseAdjacent_power_le _ env .forward (h2 ▸ h)
    _ ≤ _ := senseAdjacent_power_le _ env .left (h3 ▸ h)
    _ ≤ _ := senseAdjacent_power_le _ env .right (h4 ▸ h)

theorem cleanCurrentCell_power_le (a : VacuumAgent) (env : Environment)
    (hs : 0 ≤ a.settings.sensor_power) (hn : 0 ≤ a.settings.normal_vacuum_power)
    (hh : 0 ≤ a.settings.heavy_vacuum_power) :
    a.power_consumed ≤ (a.cleanCurrentCell env).1.power_consumed := by
  unfold VacuumAgent.cleanCurrentCell
  dsimp only
  (repeat' split) <;>
    simp only [suck_dust_power, sense_dust_power, suck_dust_settings,
      sense_dust_settings, suck_dust_position, sense_dust_position,
      suck_dust_cleaned_cells, sense_dust_cleaned_cells,
      VacuumSettings.vacuum_power] <;>
    split_ifs <;> linarith

theorem move_forward_settings (a : VacuumAgent) (env : Environment) :
    (a.move_forward env).1.settings = a.settings := by
  unfold VacuumAgent.move_forward; dsimp only; split <;> rfl

theorem move_forward_direction (a : VacuumAgent) (env : Environment) :
    (a.move_forward env).1.direction = a.direction := by
  unfold VacuumAgent.move_forward; dsimp only; split <;> rfl

theorem move_forward_map (a : VacuumAgent) (env : Environment) :
    (a.move_forward env).1.map = a.map := by
  unfold VacuumAgent.move_forward; dsimp only; split <;> rfl

theorem move_forward_cleaned_cells (a : VacuumAgent) (env : Environment) :
    (a.move_forward env).1.cleaned_cells = a.cleaned_cells := by
  unfold VacuumAgent.move_forward; dsimp only; split <;> rfl

theorem move_forward_dirty_cells (a : VacuumAgent) (env : Environment) :
    (a.move_forward env).1.dirty_cells = a.dirty_cells := by
  unfold VacuumAgent.move_forward; dsimp only; split <;> rfl

theorem move_forward_power_le (a : VacuumAgent) (env : Environment)
    (h : 0 ≤ a.settings.move_power) :
    a.power_consumed ≤ (a.move_forward env).1.power_consumed := by
  rw [move_forward_power]
  split_ifs <;> linarith

theorem followCurrentPath_power_le (a : VacuumAgent) (env : Environment)
    (d : Direction) (rest : List Direction) (hrot : 0 ≤ a.settings.rotation_power)
    (hmov : 0 ≤ a.settings.move_power) :
    a.power_consumed ≤ (a.followCurrentPath env d rest).1.power_consumed := by
  unfold VacuumAgent.followCurrentPath
  dsimp only
  split
  · exact rotate_power_le a d hrot
  · split <;> dsimp only <;> exact move_forward_power_le a env hmov

theorem followCurrentPath_settings (a : VacuumAgent) (env : Environment)
    (d : Direction) (rest : List Direction) :
    (a.followCurrentPath env d rest).1.settings = a.settings := by
  unfold VacuumAgent.followCurrentPath
  dsimp only
  split
  · rfl
  · split <;> dsimp only <;> exact move_forward_settings a env

theorem utilityMove_power_le (a : VacuumAgent) (env : Environment)
    (hrot : 0 ≤ a.settings.rotation_power) (hmov : 0 ≤ a.settings.move_power) :
    a.power_consumed ≤ (a.utilityMove env).1.power_consumed := by
  unfold VacuumAgent.utilityMove
  dsimp only
  split
  · exact le_refl _
  · split
    · exact rotate_power_le a _ hrot
    · exact move_forward_power_le a env hmov

theorem utilityMove_settings (a : VacuumAgent) (env : Environment) :
    (a.utilityMove env).1.settings = a.settings := by
  unfold VacuumAgent.utilityMove
  dsimp only
  split
  · rfl
  · split
    · rfl
    · exact move_forward_settings a env

theorem utilityMove_dirty_cells (a : VacuumAgent) (env : Environment) :
    (a.utilityMove env).1.dirty_cells = a.dirty_cells := by
  unfold VacuumAgent.utilityMove
  dsimp only
  split
  · rfl
  · split
    · rfl
    · exact move_forward_dirty_cells a env

theorem utilityMove_cleaned_cells (a : VacuumAgent) (env : Environment) :
    (a.utilityMove env).1.cleaned_cells = a.cleaned_cells := by
  unfold VacuumAgent.utilityMove
  dsimp only
  split
  · rfl
  · split
    · rfl
    · exact move_forward_cleaned_cells a env

theorem decideActionFuel_power_le (n : ℕ) :
    ∀ (a : VacuumAgent) (env : Environment) (b : VacuumAgent) (e2 : Environment),
      RatesNonneg a.settings →
      VacuumAgent.decideActionFuel n a env = .ok (b, e2) →
      a.power_consumed ≤ b.power_consumed ∧ b.settings = a.settings := by
  induction n with
  | zero =>
    intro a env b e2 _ hok
    unfold VacuumAgent.decideActionFuel at hok
    simp only [Except.ok.injEq, Prod.mk.injEq] at hok
    rw [← hok.1]
    exact ⟨le_refl _, rfl⟩
  | succ n ih =>
    intro a env b e2 hnn hok
    obtain ⟨h1, h2, h3, h4, h5⟩ := hnn
    unfold VacuumAgent.decideActionFuel at hok
    dsimp only at hok
    have hset : (((a.update_memory env).cleanCurrentCell env).1).settings = a.settings := by
      rw [cleanCurrentCell_settings, update_memory_settings]
    have hum : (a.update_memory env).settings = a.settings := update_memory_settings a env
    have hpow : a.power_consumed ≤
        (((a.update_memory env).cleanCurrentCell env).1).power_consumed := by
      refine le_trans (update_memory_power_le a env h5) ?_
      exact cleanCurrentCell_power_le _ env (hum ▸ h5) (hum ▸ h3) (hum ▸ h4)
    unfold VacuumAgent.decideActionTail at hok
    split at hok
    · simp only [Except.ok.injEq] at hok
      have hfst := congrArg Prod.fst hok
      dsimp only at hfst
      rw [← hfst]
      refine ⟨le_trans hpow ?_, ?_⟩
      · exact followCurrentPath_power_le _ _ _ _ (hset ▸ h1) (hset ▸ h2)
      · rw [followCurrentPath_settings, hset]
    · dsimp only at hok
      split at hok
      · split at hok
        · exact absurd hok (by simp)
        · split at hok
          · simp only [Except.ok.injEq] at hok
            have hfst := congrArg Prod.fst hok
            dsimp only at hfst
            rw [← hfst]
            refine ⟨le_trans hpow (utilityMove_power_le _ _ (hset ▸ h1) (hset ▸ h2)), ?_⟩
            rw [utilityMove_settings, hset]
          · have hmod := ih _ _ _ _ (by
              show RatesNonneg _
              rw [show ({ ((a.update_memory env).cleanCurrentCell env).1 with
                  current_path := _ } : VacuumAgent).settings =
                  (((a.update_memory env).cleanCurrentCell env).1).settings from rfl, hset]
              exact ⟨h1, h2, h3, h4, h5⟩) hok
            refine ⟨le_trans hpow (le_trans (le_of_eq rfl) hmod.1), ?_⟩
            rw [hmod.2, show ({ ((a.update_memory env).cleanCurrentCell env).1 with
              current_path := _ } : VacuumAgent).settings =
              (((a.update_memory env).cleanCurrentCell env).1).settings from rfl, hset]
        · simp only [Except.ok.injEq] at hok
          have hfst := congrArg Prod.fst hok
          dsimp only at hfst
          rw [← hfst]
          refine ⟨le_trans hpow (utilityMove_power_le _ _ (hset ▸ h1) (hset ▸ h2)), ?_⟩
          rw [utilityMove_settings, hset]
      · simp only [Except.ok.injEq] at hok
        have hfst := congrArg Prod.fst hok
        dsimp only at hfst
        rw [← hfst]
        refine ⟨le_trans hpow (utilityMove_power_le _ _ (hset ▸ h1) (hset ▸ h2)), ?_⟩
        rw [utilityMove_settings, hset]

theorem iterateTicks_power_le (n : ℕ) :
    ∀ (a : VacuumAgent) (env : Environment) (b : VacuumAgent) (e2 : Environment),
      RatesNonneg a.settings → iterateTicks n a env = .ok (b, e2) →
      a.power_consumed ≤ b.power_consumed ∧ b.settings = a.settings := by
  induction n with
  | zero =>
    intro a env b e2 _ hok
    have h0 : iterateTicks 0 a env = .ok (a, env) := rfl
    rw [h0] at hok
    simp only [Except.ok.injEq, Prod.mk.injEq] at hok
    rw [← hok.1]
    exact ⟨le_refl _, rfl⟩
  | succ n ih =>
    intro a env b e2 hnn hok
    have hstep : iterateTicks (n + 1) a env =
        (a.decide_action env).bind (fun pe => iterateTicks n pe.1 pe.2) := rfl
    rw [hstep] at hok
    cases hde : a.decide_action env with
    | error e =>
      rw [hde] at hok
      exact absurd hok (by simp [Except.bind])
    | ok pe =>
      obtain ⟨c, e3⟩ := pe
      rw [hde] at hok
      simp only [Except.bind] at hok
      have h1 := decideActionFuel_power_le 2 a env c e3 hnn hde
      have h2 := ih c e3 b e2 (h1.2 ▸ hnn) hok
      exact ⟨le_trans h1.1 h2.1, h2.2.trans h1.2⟩

/-- C6: with non-negative configured rates, every operation charges exactly
its configured cost (additivity), each decision tick never decreases the
accumulated power, and along any run from the initial agent the accumulated
power is non-negative and non-decreasing tick over tick. -/
theorem energy_additive_and_monotone (st : VacuumSettings) (h : RatesNonneg st) :
    (∀ (a : VacuumAgent) (t : Direction),
      (a.rotate t).power_consumed = a.power_consumed +
        ((|if (t.angle - a.direction.angle) % 360 > 180 then
            (t.angle - a.direction.angle) % 360 - 360
          else (t.angle - a.direction.angle) % 360| : ℤ) : ℚ) / 90 *
          a.settings.rotation_power) ∧
    (∀ (a : VacuumAgent) (env : Environment),
      (a.move_forward env).1.power_consumed = a.power_consumed +
        (if (env.get_cell (stepPos a.position a.direction).1
              (stepPos a.position a.direction).2).isSome
          then a.settings.move_power else 0)) ∧
    (∀ (a : VacuumAgent) (env : Environment) (sp : SensorPosition),
      (a.sense_height env sp).1.power_consumed =
        a.power_consumed + a.settings.sensor_power) ∧
    (∀ (a : VacuumAgent) (env : Environment) (sp : SensorPosition),
      (a.sense_dust env sp).1.power_consumed = a.power_consumed +
        (if senseDustCached a sp then 0 else a.settings.sensor_power)) ∧
    (∀ (a : VacuumAgent) (env : Environment) (pr : Pressure),
      (a.suck_dust env pr).1.power_consumed = a.power_consumed +
        (if a.position ∈ a.cleaned_cells then 0 else a.settings.vacuum_power pr)) ∧
    (∀ (a : VacuumAgent) (env : Environment) (b : VacuumAgent) (e2 : Environment),
      a.settings = st → a.decide_action env = .ok (b, e2) →
      a.power_consumed ≤ b.power_consumed) ∧
    (∀ (env : Environment) (n : ℕ) (b : VacuumAgent) (e2 : Environment),
      iterateTicks n (VacuumAgent.init st) env = .ok (b, e2) →
      0 ≤ b.power_consumed ∧
        ∀ (b2 : VacuumAgent) (e3 : Environment),
          b.decide_action e2 = .ok (b2, e3) →
          b.power_consumed ≤ b2.power_consumed) := by
  refine ⟨fun a t => rfl, move_forward_power, sense_height_power, sense_dust_power,
    suck_dust_power, ?_, ?_⟩
  · intro a env b e2 hset hok
    exact (decideActionFuel_power_le 2 a env b e2 (by rw [hset]; exact h) hok).1
  · intro env n b e2 hok
    have hrun := iterateTicks_power_le n (VacuumAgent.init st) env b e2
      (show RatesNonneg (VacuumAgent.init st).settings from h) hok
    constructor
    · calc (0 : ℚ) = (VacuumAgent.init st).power_consumed := rfl
        _ ≤ b.power_consumed := hrun.1
    · intro b2 e3 hstep
      exact (decideActionFuel_power_le 2 b e2 b2 e3
        (show RatesNonneg b.settings from hrun.2 ▸ h) hstep).1

/-- Witness for `energy_additive_and_monotone` at the sample settings and a
zero-tick run: the initial agent's accumulated power is non-negative. -/
theorem energy_additive_and_monotone_witness :
    RatesNonneg sampleSettings ∧
      (0 : ℚ) ≤ (VacuumAgent.init sampleSettings).power_consumed := by
  have hr : RatesNonneg sampleSettings := by
    refine ⟨?_, ?_, ?_, ?_, ?_⟩ <;> norm_num [sampleSettings]
  refine ⟨hr, ?_⟩
  exact ((energy_additive_and_monotone sampleSettings hr).2.2.2.2.2.2 oneCellEnv 0
    (VacuumAgent.init sampleSettings) oneCellEnv rfl).1

theorem mem_setAdd (l : List Position) (p q : Position) :
    q ∈ setAdd l p ↔ q ∈ l ∨ q = p := by
  unfold setAdd
  split_ifs with h
  · constructor
    · exact Or.inl
    · rintro (hq | hq)
      · exact hq
      · exact hq ▸ h
  · simp [List.mem_append]

theorem not_mem_setRemove (l : List Position) (p : Position) :
    p ∉ setRemove l p := by
  simp [setRemove, List.mem_filter]

theorem clean_branch_sets (a : VacuumAgent) (env : Environment)
    (cell : CellKnowledge) (hc : alistFind a.position a.map = some cell)
    (hd : 0 < cell.dust_weight) (hcl : a.position ∉ a.cleaned_cells) :
    (a.cleanCurrentCell env).1.dirty_cells = a.dirty_cells ∧
      a.position ∈ (a.cleanCurrentCell env).1.cleaned_cells := by
  constructor <;>
    simp [VacuumAgent.cleanCurrentCell, VacuumAgent.sense_dust,
      VacuumAgent.suck_dust, hc, hd, hcl, VacuumSettings.vacuum_power,
      mem_setAdd]

/-- C1 (amended): the sensing pass's reclassification moves a position from
the dirty set to the cleaned set exactly when the position was in the dirty
set and its last-known dust weight is zero, and re-adds any position whose
sensed dust is positive; but set disjointness is NOT preserved by every
operation: the controller's clean step (`decide_action` lines 471-484) adds
the current position to the cleaned set while leaving the dirty set
untouched, so a position can end up in both sets. -/
theorem dirty_cleaned_classification :
    (∀ (a : VacuumAgent) (p : Position) (dw : ℚ),
      (p ∈ (a.classifyDust p dw).cleaned_cells ↔
        p ∈ a.cleaned_cells ∨ (p ∈ a.dirty_cells ∧ dw = 0)) ∧
      (p ∈ (a.classifyDust p dw).dirty_cells ↔
        dw > 0 ∨ (p ∈ a.dirty_cells ∧ ¬ dw = 0))) ∧
    ∀ (a : VacuumAgent) (env : Environment) (cell : CellKnowledge),
      alistFind a.position a.map = some cell → 0 < cell.dust_weight →
      a.position ∉ a.cleaned_cells →
      (a.cleanCurrentCell env).1.dirty_cells = a.dirty_cells ∧
        a.position ∈ (a.cleanCurrentCell env).1.cleaned_cells := by
  refine ⟨?_, clean_branch_sets⟩
  intro a p dw
  unfold VacuumAgent.classifyDust
  split_ifs with hpos hmove
  · constructor
    · constructor
      · exact Or.inl
      · rintro (hp | ⟨_, hz⟩)
        · exact hp
        · rw [hz] at hpos; exact absurd hpos (lt_irrefl 0)
    · rw [mem_setAdd]
      constructor
      · intro _; exact Or.inl hpos
      · intro _; exact Or.inr rfl
  · constructor
    · rw [mem_setAdd]
      constructor
      · intro _; exact Or.inr hmove
      · intro _; exact Or.inr rfl
    · constructor
      · intro hp
        exact absurd hp (not_mem_setRemove _ _)
      · rintro (hp | ⟨_, hz⟩)
        · exact absurd hp hpos
        · exact absurd hmove.2 hz
  · constructor
    · constructor
      · exact Or.inl
      · rintro (hp | hpd)
        · exact hp
        · exact absurd hpd hmove
    · constructor
      · intro hp
        by_cases hz : dw = 0
        · exact absurd ⟨hp, hz⟩ hmove
        · exact Or.inr ⟨hp, hz⟩
      · rintro (hp | ⟨hdm, _⟩)
        · exact absurd hp hpos
        · exact hdm

theorem c1_update_memory_eval :
    (VacuumAgent.init sampleSettings).update_memory oneCellEnv = c1AfterUpdate := by
  norm_num [VacuumAgent.update_memory, VacuumAgent.bumpVisitStats,
    VacuumAgent.recordCurrentCell, VacuumAgent.senseAdjacent,
    VacuumAgent.senseHeights, VacuumAgent.recordDelta, VacuumAgent.sense_dust,
    VacuumAgent.sense_height, VacuumAgent.classifyDust, VacuumAgent.init,
    mapRecordDust, mapRecordDelta, CellKnowledge.setDelta, CellKnowledge.delta,
    setAdd, setRemove, alistFind, alistSet, oneCellEnv, Environment.get_cell,
    EnvCell.delta, Direction.left, Direction.right, Direction.from_angle,
    Direction.angle, Direction.movement_vector, Direction.get_relative_position,
    sampleSettings, c1AfterUpdate, dustyKnowledge, Prod.ext_iff]

theorem c1_clean_eval :
    c1AfterUpdate.cleanCurrentCell oneCellEnv = (c1AfterClean, c1EnvAfter) := by
  norm_num [VacuumAgent.cleanCurrentCell, VacuumAgent.sense_dust,
    VacuumAgent.suck_dust, VacuumSettings.vacuum_power, MAX_SUCTION_WEIGHT,
    Environment.get_sucked, Environment.get_cell, alistFind, alistSet, setAdd,
    c1AfterUpdate, c1AfterClean, c1EnvAfter, dustyKnowledge, sampleSettings,
    oneCellEnv, Prod.ext_iff]

theorem c1_find_path_eval :
    c1AfterClean.find_path_to_dirt = .ok (some ([] : List Direction)) := by
  rfl

theorem c1_decide_action_eval :
    (VacuumAgent.init sampleSettings).decide_action oneCellEnv =
      .ok (c1AfterClean.utilityMove c1EnvAfter) := by
  show VacuumAgent.decideActionFuel 2 _ _ = _
  have hstep : VacuumAgent.decideActionFuel 2 (VacuumAgent.init sampleSettings)
      oneCellEnv =
      VacuumAgent.decideActionTail (VacuumAgent.decideActionFuel 1)
        (((VacuumAgent.init sampleSettings).update_memory
            oneCellEnv).cleanCurrentCell oneCellEnv).1
        (((VacuumAgent.init sampleSettings).update_memory
            oneCellEnv).cleanCurrentCell oneCellEnv).2 := rfl
  rw [hstep, c1_update_memory_eval, c1_clean_eval]
  show VacuumAgent.decideActionTail _ c1AfterClean c1EnvAfter = _
  unfold VacuumAgent.decideActionTail
  have hpath : c1AfterClean.current_path = [] := rfl
  rw [hpath]
  have hcur : c1AfterClean.calculate_curiosity_factor = 1 / 10 := by
    norm_num [VacuumAgent.calculate_curiosity_factor, c1AfterClean]
  have hcond : (c1AfterClean.dirty_cells ≠ [] ∧
      c1AfterClean.calculate_curiosity_factor < 7 / 10) := by
    rw [hcur]
    exact ⟨by decide, by norm_num⟩
  rw [if_pos hcond, c1_find_path_eval]
  norm_num

theorem dirty_and_cleaned_overlap :
    ((0, 0) : Position) ∈ oneCellTick.dirty_cells ∧
      ((0, 0) : Position) ∈ oneCellTick.cleaned_cells := by
  have ht : oneCellTick = (c1AfterClean.utilityMove c1EnvAfter).1 := by
    unfold oneCellTick
    rw [c1_decide_action_eval]
  rw [ht, utilityMove_dirty_cells, utilityMove_cleaned_cells]
  exact ⟨by decide, by decide⟩

/-- Witness for `dirty_cleaned_classification` at the concrete dusty agent:
the clean step leaves the dirty set unchanged while marking the position
cleaned. -/
theorem dirty_cleaned_classification_witness :
    alistFind dustyAgent.position dustyAgent.map = some dustyKnowledge ∧
      (dustyAgent.cleanCurrentCell oneCellEnv).1.dirty_cells =
          dustyAgent.dirty_cells ∧
        dustyAgent.position ∈ (dustyAgent.cleanCurrentCell oneCellEnv).1.cleaned_cells := by
  have h1 : alistFind dustyAgent.position dustyAgent.map = some dustyKnowledge := by
    simp [dustyAgent, dustyKnowledge, alistFind, VacuumAgent.init]
  exact ⟨h1, dirty_cleaned_classification.2 dustyAgent oneCellEnv dustyKnowledge h1
    (by norm_num [dustyKnowledge]) (by simp [dustyAgent, VacuumAgent.init])⟩

theorem stepPos_ne (p : Position) (d : Direction) : stepPos p d ≠ p := by
  cases d <;>
    simp only [stepPos, Direction.movement_vector, ne_eq, Prod.ext_iff,
      not_and] <;>
    intro h <;> omega

theorem alistFind_set_isSome {α : Type} (k k2 : Position) (v : α)
    (l : List (Position × α)) (h : (alistFind k l).isSome = true) :
    (alistFind k (alistSet k2 v l)).isSome = true := by
  by_cases he : k = k2
  · subst he
    rw [alistFind_set_self]
    rfl
  · rw [alistFind_set_ne k2 k v l he]
    exact h

theorem extractMin_mem (e : ℤ × Position) (l : List (ℤ × Position)) :
    (extractMin e l).1 ∈ e :: l := by
  induction l generalizing e with
  | nil => simp [extractMin]
  | cons x xs ih =>
    unfold extractMin
    split_ifs <;> dsimp only
    · rcases List.mem_cons.mp (ih e) with h | h
      · simp [h]
      · simp [h]
    · rcases List.mem_cons.mp (ih x) with h | h
      · simp [h]
      · simp [h]

theorem extractMin_rest_subset (e : ℤ × Position) (l : List (ℤ × Position)) :
    ∀ x ∈ (extractMin e l).2, x ∈ e :: l := by
  induction l generalizing e with
  | nil => simp [extractMin]
  | cons y ys ih =>
    unfold extractMin
    split_ifs <;> dsimp only <;> intro x hx
    · rcases List.mem_cons.mp hx with h | h
      · simp [h]
      · have := ih e x h
        rcases List.mem_cons.mp this with h2 | h2 <;> simp [h2]
    · rcases List.mem_cons.mp hx with h | h
      · simp [h]
      · have := ih y x h
        rcases List.mem_cons.mp this with h2 | h2 <;> simp [h2]

theorem followTo_append_one (p0 : Position) (xs : List Direction) (d : Direction) :
    followTo p0 (xs ++ [d]) = stepPos (followTo p0 xs) d := by
  induction xs generalizing p0 with
  | nil => rfl
  | cons x xs ih => simp only [List.cons_append, followTo]; exact ih _

theorem safeRoute_append_one (m : List (Position × CellKnowledge)) (p0 : Position)
    (xs : List Direction) (d : Direction) (h : SafeRoute m p0 xs)
    (hmem : (alistFind (stepPos (followTo p0 xs) d) m).isSome = true)
    (hsafe : ∃ c hh, alistFind (followTo p0 xs) m = some c ∧
      c.delta d = some hh ∧ |hh| ≤ MAX_SAFE_HEIGHT) :
    SafeRoute m p0 (xs ++ [d]) := by
  induction xs generalizing p0 with
  | nil => exact ⟨hmem, hsafe, trivial⟩
  | cons x xs ih =>
    obtain ⟨h1, h2, h3⟩ := h
    exact ⟨h1, h2, ih _ h3 hmem hsafe⟩

theorem reconstruct_safe (m : List (Position × CellKnowledge)) (src : Position)
    (came : List (Position × (Position × Direction))) (g : List (Position × ℤ))
    (hlink : ∀ p q d, alistFind p came = some (q, d) →
      p = stepPos q d ∧ (alistFind p m).isSome = true ∧
        (∃ c h, alistFind q m = some c ∧ c.delta d = some h ∧
          |h| ≤ MAX_SAFE_HEIGHT) ∧
        ∃ gq gp, alistFind q g = some gq ∧ alistFind p g = some gp ∧ gq < gp)
    (hcover : ∀ p gp, alistFind p g = some gp →
      0 ≤ gp ∧ (p = src ∨ (alistFind p came).isSome = true)) :
    ∀ n p gp, alistFind p g = some gp → gp.natAbs ≤ n →
      SafeRoute m src (reconstruct_path came n p) ∧
        followTo src (reconstruct_path came n p) = p ∧
        (reconstruct_path came n p).length ≤ gp.natAbs := by
  intro n
  induction n with
  | zero =>
    intro p gp hg hb
    have hsrc : p = src := by
      rcases (hcover p gp hg).2 with h | h
      · exact h
      · exfalso
        obtain ⟨⟨q, d⟩, hq⟩ := Option.isSome_iff_exists.mp h
        obtain ⟨_, _, _, gq, gp2, hgq, hgp2, hlt⟩ := hlink p q d hq
        rw [hg] at hgp2
        injection hgp2 with e
        subst e
        have h0 := (hcover q gq hgq).1
        omega
    subst hsrc
    exact ⟨trivial, rfl, by simp [reconstruct_path]⟩
  | succ n ih =>
    intro p gp hg hb
    cases hcame : alistFind p came with
    | none =>
      have hrec : reconstruct_path came (n + 1) p = [] := by
        simp [reconstruct_path, hcame]
      have hsrc : p = src := by
        rcases (hcover p gp hg).2 with h | h
        · exact h
        · rw [hcame] at h
          exact absurd h (by simp)
      subst hsrc
      rw [hrec]
      exact ⟨trivial, rfl, by simp⟩
    | some pr =>
      obtain ⟨q, d⟩ := pr
      obtain ⟨hstep, hmem, hsafe, gq, gp2, hgq, hgp2, hlt⟩ := hlink p q d hcame
      rw [hg] at hgp2
      injection hgp2 with e
      subst e
      have hgq0 := (hcover q gq hgq).1
      have hbq : gq.natAbs ≤ n := by omega
      obtain ⟨ihsafe, ihfollow, ihlen⟩ := ih q gq hgq hbq
      have hrec : reconstruct_path came (n + 1) p =
          reconstruct_path came n q ++ [d] := by
        simp [reconstruct_path, hcame]
      rw [hrec]
      refine ⟨?_, ?_, ?_⟩
      · refine safeRoute_append_one m src _ d ihsafe ?_ ?_
        · rw [ihfollow, ← hstep]
          exact hmem
        · rw [ihfollow]
          exact hsafe
      · rw [followTo_append_one, ihfollow, ← hstep]
      · rw [List.length_append]
        simp only [List.length_singleton]
        omega

theorem relax_links (m : List (Position × CellKnowledge)) (src : Position)
    (came : List (Position × (Position × Direction))) (g : List (Position × ℤ))
    (cur : Position) (d : Direction) (gc : ℤ)
    (hlink : ∀ p q d2, alistFind p came = some (q, d2) →
      p = stepPos q d2 ∧ (alistFind p m).isSome = true ∧
        (∃ c h, alistFind q m = some c ∧ c.delta d2 = some h ∧
          |h| ≤ MAX_SAFE_HEIGHT) ∧
        ∃ gq gp, alistFind q g = some gq ∧ alistFind p g = some gp ∧ gq < gp)
    (hsrcnone : alistFind src came = none)
    (hcover : ∀ p gp, alistFind p g = some gp →
      0 ≤ gp ∧ (p = src ∨ (alistFind p came).isSome = true))
    (hsrc0 : alistFind src g = some 0)
    (hmem : (alistFind (stepPos cur d) m).isSome = true)
    (hsafe : ∃ c h, alistFind cur m = some c ∧ c.delta d = some h ∧
      |h| ≤ MAX_SAFE_HEIGHT)
    (hgc : alistFind cur g = some gc)
    (hlt : ∀ gn, alistFind (stepPos cur d) g = some gn → gc + 1 < gn) :
    (∀ p q d2,
      alistFind p (alistSet (stepPos cur d) (cur, d) came) = some (q, d2) →
      p = stepPos q d2 ∧ (alistFind p m).isSome = true ∧
        (∃ c h, alistFind q m = some c ∧ c.delta d2 = some h ∧
          |h| ≤ MAX_SAFE_HEIGHT) ∧
        ∃ gq gp, alistFind q (alistSet (stepPos cur d) (gc + 1) g) = some gq ∧
          alistFind p (alistSet (stepPos cur d) (gc + 1) g) = some gp ∧
          gq < gp) ∧
    alistFind src (alistSet (stepPos cur d) (cur, d) came) = none ∧
    (∀ p gp, alistFind p (alistSet (stepPos cur d) (gc + 1) g) = some gp →
      0 ≤ gp ∧ (p = src ∨
        (alistFind p (alistSet (stepPos cur d) (cur, d) came)).isSome = true)) ∧
    alistFind src (alistSet (stepPos cur d) (gc + 1) g) = some 0 := by
  have hgc0 : 0 ≤ gc := (hcover cur gc hgc).1
  have hns : src ≠ stepPos cur d := by
    intro he
    have := hlt 0 (by rw [← he]; exact hsrc0)
    omega
  have hnc : cur ≠ stepPos cur d := (stepPos_ne cur d).symm
  refine ⟨?_, ?_, ?_, ?_⟩
  · intro p q d2 hp
    by_cases hpe : p = stepPos cur d
    · subst hpe
      rw [alistFind_set_self] at hp
      injection hp with e
      rw [Prod.ext_iff] at e
      obtain ⟨e1, e2⟩ := e
      subst e1
      subst e2
      refine ⟨rfl, hmem, hsafe, gc, gc + 1, ?_, alistFind_set_self _ _ _, by omega⟩
      rw [alistFind_set_ne _ _ _ _ hnc]
      exact hgc
    · rw [alistFind_set_ne _ _ _ _ hpe] at hp
      obtain ⟨h1, h2, h3, gq, gp, hgq, hgp, hltq⟩ := hlink p q d2 hp
      refine ⟨h1, h2, h3, ?_⟩
      by_cases hqe : q = stepPos cur d
      · subst hqe
        refine ⟨gc + 1, gp, alistFind_set_self _ _ _, ?_, ?_⟩
        · rw [alistFind_set_ne _ _ _ _ hpe]
          exact hgp
        · have := hlt gq hgq
          omega
      · refine ⟨gq, gp, ?_, ?_, hltq⟩
        · rw [alistFind_set_ne _ _ _ _ hqe]
          exact hgq
        · rw [alistFind_set_ne _ _ _ _ hpe]
          exact hgp
  · rw [alistFind_set_ne _ _ _ _ hns]
    exact hsrcnone
  · intro p gp hp
    by_cases hpe : p = stepPos cur d
    · subst hpe
      rw [alistFind_set_self] at hp
      injection hp with e
      subst e
      refine ⟨by omega, Or.inr ?_⟩
      rw [alistFind_set_self]
      rfl
    · rw [alistFind_set_ne _ _ _ _ hpe] at hp
      obtain ⟨h0, hor⟩ := hcover p gp hp
      refine ⟨h0, ?_⟩
      rcases hor with h | h
      · exact Or.inl h
      · refine Or.inr ?_
        rw [alistFind_set_ne _ _ _ _ hpe]
        exact h
  · rw [alistFind_set_ne _ _ _ _ hns]
    exact hsrc0

theorem expandDir_cameOk (m : List (Position × CellKnowledge))
    (src tgt cur : Position) (st st2 : AStarState) (d : Direction)
    (hinv : CameOk m src st) (hok : expandDir m tgt cur st d = .ok st2) :
    CameOk m src st2 := by
  unfold CameOk at hinv
  obtain ⟨hlink, hsrcnone, hcover, hsrc0, hheap⟩ := hinv
  unfold CameOk
  unfold expandDir at hok
  dsimp only at hok
  by_cases hclosed : stepPos cur d ∈ st.closed_set
  · rw [if_pos hclosed] at hok
    injection hok with e
    subst e
    exact ⟨hlink, hsrcnone, hcover, hsrc0, hheap⟩
  rw [if_neg hclosed] at hok
  by_cases hmapn : (alistFind (stepPos cur d) m).isNone = true
  · rw [if_pos hmapn] at hok
    injection hok with e
    subst e
    exact ⟨hlink, hsrcnone, hcover, hsrc0, hheap⟩
  rw [if_neg hmapn] at hok
  have hmem : (alistFind (stepPos cur d) m).isSome = true := by
    cases hx : alistFind (stepPos cur d) m with
    | none => rw [hx] at hmapn; exact absurd rfl hmapn
    | some v => rfl
  cases hcell : alistFind cur m with
  | none =>
    rw [hcell] at hok
    dsimp only at hok
    cases hok
  | some cc =>
  rw [hcell] at hok
  dsimp only at hok
  cases hdel : cc.delta d with
  | none =>
    rw [hdel] at hok
    dsimp only at hok
    injection hok with e
    subst e
    exact ⟨hlink, hsrcnone, hcover, hsrc0, hheap⟩
  | some hd =>
  rw [hdel] at hok
  dsimp only at hok
  by_cases hunsafe : |hd| > MAX_SAFE_HEIGHT
  · rw [if_pos hunsafe] at hok
    injection hok with e
    subst e
    exact ⟨hlink, hsrcnone, hcover, hsrc0, hheap⟩
  rw [if_neg hunsafe] at hok
  have hsafe : ∃ c h, alistFind cur m = some c ∧ c.delta d = some h ∧
      |h| ≤ MAX_SAFE_HEIGHT := ⟨cc, hd, hcell, hdel, by omega⟩
  cases hgcur : alistFind cur st.g_score with
  | none =>
    rw [hgcur] at hok
    dsimp only at hok
    cases hok
  | some gc =>
  rw [hgcur] at hok
  dsimp only at hok
  cases hgn : alistFind (stepPos cur d) st.g_score with
  | some gn =>
    rw [hgn] at hok
    dsimp only at hok
    by_cases hge : gc + 1 ≥ gn
    · rw [if_pos hge] at hok
      injection hok with e
      subst e
      exact ⟨hlink, hsrcnone, hcover, hsrc0, hheap⟩
    rw [if_neg hge] at hok
    have hlt : ∀ gn2, alistFind (stepPos cur d) st.g_score = some gn2 →
        gc + 1 < gn2 := by
      intro gn2 h
      rw [hgn] at h
      injection h with e
      omega
    obtain ⟨c1, c2, c3, c4⟩ := relax_links m src st.came_from st.g_score cur d gc
      hlink hsrcnone hcover hsrc0 hmem hsafe hgcur hlt
    by_cases hio : stepPos cur d ∈ st.in_open_set
    · rw [if_pos hio] at hok
      injection hok with e
      subst e
      refine ⟨c1, c2, c3, c4, ?_⟩
      intro f p hp
      exact alistFind_set_isSome _ _ _ _ (hheap f p hp)
    · rw [if_neg hio] at hok
      injection hok with e
      subst e
      refine ⟨c1, c2, c3, c4, ?_⟩
      intro f p hp
      rcases List.mem_cons.mp hp with h | h
      · have hps : p = stepPos cur d := congrArg Prod.snd h
        subst hps
        rw [alistFind_set_self]
        rfl
      · exact alistFind_set_isSome _ _ _ _ (hheap f p h)
  | none =>
    rw [hgn] at hok
    dsimp only at hok
    have hlt : ∀ gn2, alistFind (stepPos cur d) st.g_score = some gn2 →
        gc + 1 < gn2 := by
      intro gn2 h
      rw [hgn] at h
      cases h
    obtain ⟨c1, c2, c3, c4⟩ := relax_links m src st.came_from st.g_score cur d gc
      hlink hsrcnone hcover hsrc0 hmem hsafe hgcur hlt
    by_cases hio : stepPos cur d ∈ st.in_open_set
    · rw [if_pos hio] at hok
      injection hok with e
      subst e
      refine ⟨c1, c2, c3, c4, ?_⟩
      intro f p hp
      exact alistFind_set_isSome _ _ _ _ (hheap f p hp)
    · rw [if_neg hio] at hok
      injection hok with e
      subst e
      refine ⟨c1, c2, c3, c4, ?_⟩
      intro f p hp
      rcases List.mem_cons.mp hp with h | h
      · have hps : p = stepPos cur d := congrArg Prod.snd h
        subst hps
        rw [alistFind_set_self]
        rfl
      · exact alistFind_set_isSome _ _ _ _ (hheap f p h)

theorem expandDirs_cameOk (m : List (Position × CellKnowledge))
    (src tgt cur : Position) :
    ∀ ds st st2, CameOk m src st →
      expandDirs m tgt cur ds st = .ok st2 → CameOk m src st2 := by
  intro ds
  induction ds with
  | nil =>
    intro st st2 hinv hok
    unfold expandDirs at hok
    injection hok with e
    subst e
    exact hinv
  | cons d ds ih =>
    intro st st2 hinv hok
    unfold expandDirs at hok
    split at hok
    · cases hok
    · rename_i stm hexp
      exact ih stm st2 (expandDir_cameOk m src tgt cur st stm d hinv hexp) hok

theorem aStarLoop_safe (m : List (Position × CellKnowledge))
    (src tgt : Position) :
    ∀ fuel st route, CameOk m src st →
      aStarLoop m tgt fuel st = .ok (some route) →
      SafeRoute m src route ∧ followTo src route = tgt := by
  intro fuel
  induction fuel with
  | zero =>
    intro st route hinv hok
    unfold aStarLoop at hok
    injection hok with e
    cases e
  | succ n ih =>
    intro st route hinv hok
    have hinv2 := hinv
    unfold CameOk at hinv2
    obtain ⟨hlink, hsrcnone, hcover, hsrc0, hheap⟩ := hinv2
    unfold aStarLoop at hok
    cases hopen : st.open_set with
    | nil =>
      rw [hopen] at hok
      dsimp only at hok
      injection hok with e
      cases e
    | cons e es =>
      rw [hopen] at hok
      dsimp only at hok
      by_cases htgt : (extractMin e es).1.2 = tgt
      · rw [if_pos htgt] at hok
        injection hok with e2
        injection e2 with e3
        have hmem1 : (extractMin e es).1 ∈ st.open_set := by
          rw [hopen]
          exact extractMin_mem e es
        have hs := hheap (extractMin e es).1.1 (extractMin e es).1.2
          (by rw [Prod.mk.eta]; exact hmem1)
        obtain ⟨gp, hg⟩ := Option.isSome_iff_exists.mp hs
        rw [htgt] at hg
        rw [htgt, hg] at e3
        simp only [Option.getD_some] at e3
        obtain ⟨hs1, hf1, _⟩ := reconstruct_safe m src st.came_from st.g_score
          hlink hcover gp.natAbs tgt gp hg le_rfl
        rw [e3] at hs1 hf1
        exact ⟨hs1, hf1⟩
      · rw [if_neg htgt] at hok
        split at hok
        · cases hok
        · rename_i st3 hexp
          refine ih st3 route ?_ hok
          refine expandDirs_cameOk m src tgt (extractMin e es).1.2
            agentDirections _ st3 ?_ hexp
          unfold CameOk
          refine ⟨hlink, hsrcnone, hcover, hsrc0, ?_⟩
          intro f p hp
          dsimp only at hp
          refine hheap f p ?_
          rw [hopen]
          exact extractMin_rest_subset e es (f, p) hp

theorem a_star_pathfind_safe (a : VacuumAgent) (tgt : Position)
    (route : List Direction) (hok : a.a_star_pathfind tgt = .ok (some route)) :
    SafeRoute a.map a.position route ∧ followTo a.position route = tgt := by
  unfold VacuumAgent.a_star_pathfind at hok
  dsimp only at hok
  refine aStarLoop_safe a.map a.position tgt (a.map.length + 2) _ route ?_ hok
  unfold CameOk
  refine ⟨?_, ?_, ?_, ?_, ?_⟩
  · intro p q d hp
    simp [alistFind] at hp
  · rfl
  · intro p gp hp
    dsimp only at hp
    by_cases hpe : a.position = p
    · simp only [alistFind, if_pos hpe] at hp
      injection hp with e
      subst e
      exact ⟨le_refl 0, Or.inl hpe.symm⟩
    · simp only [alistFind, if_neg hpe] at hp
      cases hp
  · simp [alistFind]
  · intro f p hp
    dsimp only at hp
    have h1 := List.mem_singleton.mp hp
    have hpe : p = a.position := congrArg Prod.snd h1
    subst hpe
    simp [alistFind]

theorem unsafe_delta_penalty (a : VacuumAgent) (env : Environment)
    (d : Direction) (cell : EnvCell)
    (hcur : env.get_cell a.position.1 a.position.2 = some cell)
    (hdelta : |cell.delta d| > MAX_SAFE_HEIGHT) :
    a.calculate_move_utility env d = -100 := by
  unfold VacuumAgent.calculate_move_utility
  dsimp only
  cases htc : env.get_cell (stepPos a.position d).1 (stepPos a.position d).2 with
  | none => rfl
  | some tc =>
    dsimp only
    rw [hcur]
    dsimp only
    rw [if_pos hdelta]
    rw [if_pos rfl]

/-- C4: whenever the environment cell under the agent records a height delta
for a direction whose magnitude exceeds `MAX_SAFE_HEIGHT`,
`calculate_move_utility` for that direction returns the large fixed penalty
`-100`, overriding all other factors; and every route returned by
`a_star_pathfind` is safe through the agent's map: each edge's destination
is present in the map and the source cell's recorded height delta for the
traversal direction has magnitude at most `MAX_SAFE_HEIGHT`. -/
theorem unsafe_edges_never_taken :
    (∀ (a : VacuumAgent) (env : Environment) (d : Direction) (cell : EnvCell),
      env.get_cell a.position.1 a.position.2 = some cell →
      |cell.delta d| > MAX_SAFE_HEIGHT →
      a.calculate_move_utility env d = -100) ∧
    (∀ (a : VacuumAgent) (target_pos : Position) (route : List Direction),
      a.a_star_pathfind target_pos = .ok (some route) →
      SafeRoute a.map a.position route) :=
  ⟨fun a env d cell hcur hdelta => unsafe_delta_penalty a env d cell hcur hdelta,
   fun a target_pos route hok => (a_star_pathfind_safe a target_pos route hok).1⟩

/-- Witness for C4: on `cliffEnv` the initial agent's utility toward NORTH
(delta 4) is `-100`, and the concrete route `a_star_pathfind` returns on
`flatTwoMap` is safe. -/
theorem unsafe_edges_never_taken_witness :
    (VacuumAgent.init sampleSettings).calculate_move_utility cliffEnv
        Direction.NORTH = -100 ∧
      SafeRoute flatTwoAgent.map flatTwoAgent.position [Direction.NORTH] := by
  obtain ⟨h1, h2⟩ := unsafe_edges_never_taken
  refine ⟨h1 (VacuumAgent.init sampleSettings) cliffEnv Direction.NORTH
    ⟨0, 0, 4, 0, "", 0, false⟩ rfl (by decide), ?_⟩
  refine h2 flatTwoAgent ((0 : ℤ), (1 : ℤ)) [Direction.NORTH] ?_
  rfl

theorem mdist_nonneg (p q : Position) : 0 ≤ manhattan_distance p q := by
  unfold manhattan_distance
  simp only [Int.abs_eq_natAbs]
  omega

theorem mdist_triangle (s p t : Position) :
    manhattan_distance s t ≤ manhattan_distance s p + manhattan_distance p t := by
  unfold manhattan_distance
  simp only [Int.abs_eq_natAbs]
  omega

theorem mdist_step (p : Position) (d : Direction) :
    manhattan_distance p (stepPos p d) = 1 := by
  cases d <;>
    simp only [manhattan_distance, stepPos, Direction.movement_vector,
      Int.abs_eq_natAbs] <;>
    omega

theorem coneMem_refl (tgt a : Position) : coneMem tgt a a := by
  unfold coneMem
  omega

theorem coneMem_tgt (tgt a : Position) : coneMem tgt a tgt := by
  unfold coneMem
  omega

theorem coneMem_sub (tgt a b w : Position) (h1 : coneMem tgt a b)
    (h2 : coneMem tgt b w) : coneMem tgt a w := by
  unfold coneMem at *
  omega

theorem coneMem_antisymm (tgt a b : Position) (h1 : coneMem tgt a b)
    (h2 : coneMem tgt b a) : a = b := by
  unfold coneMem at *
  exact Prod.ext_iff.mpr ⟨by omega, by omega⟩

theorem coneMem_inGrid (N : ℤ) (src tgt a w : Position)
    (hsp : manhattan_distance src a + manhattan_distance a tgt =
      manhattan_distance src tgt)
    (hw : coneMem tgt a w) (hs : inGrid N src) (ht : inGrid N tgt) :
    inGrid N w := by
  unfold manhattan_distance at hsp
  unfold coneMem at hw
  unfold inGrid at *
  simp only [Int.abs_eq_natAbs] at hsp
  omega

theorem step_into_cone (tgt a u w : Position) (dd : Direction)
    (hw : coneMem tgt a w) (heq : w = stepPos u dd)
    (hu : u = a ∨ ¬ coneMem tgt a u) :
    manhattan_distance w tgt + 1 = manhattan_distance u tgt := by
  subst heq
  rcases hu with hu | hu
  · subst hu
    cases dd <;>
      (unfold coneMem at hw
       unfold manhattan_distance stepPos Direction.movement_vector at * <;>
       simp only [Int.abs_eq_natAbs] at * <;>
       omega)
  · cases dd <;>
      (unfold coneMem at hw hu
       unfold manhattan_distance stepPos Direction.movement_vector at * <;>
       simp only [Int.abs_eq_natAbs] at * <;>
       omega)

theorem other_step_out (tgt u : Position) (dd dd2 : Direction)
    (hfresh : manhattan_distance (stepPos u dd) tgt + 1 =
      manhattan_distance u tgt)
    (hne : dd2 ≠ dd) : ¬ coneMem tgt (stepPos u dd) (stepPos u dd2) := by
  cases dd <;> cases dd2 <;>
    first
      | exact absurd rfl hne
      | (unfold coneMem manhattan_distance stepPos Direction.movement_vector
          at * <;>
         simp only [Int.abs_eq_natAbs] at * <;>
         omega)

theorem forward_exists (tgt a : Position) (h : a ≠ tgt) :
    ∃ dd, coneMem tgt a (stepPos a dd) := by
  rcases lt_trichotomy a.1 tgt.1 with h1 | h1 | h1
  · exact ⟨.EAST, by
      unfold coneMem stepPos Direction.movement_vector
      dsimp only
      omega⟩
  · rcases lt_trichotomy a.2 tgt.2 with h2 | h2 | h2
    · exact ⟨.NORTH, by
        unfold coneMem stepPos Direction.movement_vector
        dsimp only
        omega⟩
    · exact absurd (Prod.ext_iff.mpr ⟨h1, h2⟩) h
    · exact ⟨.SOUTH, by
        unfold coneMem stepPos Direction.movement_vector
        dsimp only
        omega⟩
  · exact ⟨.WEST, by
      unfold coneMem stepPos Direction.movement_vector
      dsimp only
      omega⟩

theorem stepPos_inj (p : Position) {d1 d2 : Direction}
    (h : stepPos p d1 = stepPos p d2) : d1 = d2 := by
  cases d1 <;> cases d2 <;>
    first
      | rfl
      | (exfalso
         rw [Prod.ext_iff] at h
         unfold stepPos Direction.movement_vector at h
         dsimp only at h
         omega)

theorem manhattan_le_walk (xs : List Direction) (p0 : Position) :
    manhattan_distance p0 (followTo p0 xs) ≤ xs.length := by
  induction xs generalizing p0 with
  | nil =>
    unfold followTo manhattan_distance
    simp only [List.length_nil, Nat.cast_zero, sub_self, abs_zero, add_zero]
    omega
  | cons x xs ih =>
    have h1 := mdist_triangle p0 (stepPos p0 x) (followTo (stepPos p0 x) xs)
    have h2 := mdist_step p0 x
    have h3 := ih (stepPos p0 x)
    unfold followTo
    simp only [List.length_cons]
    push_cast at *
    omega

theorem entryLE_iff (a b : ℤ × Position) : entryLE a b = true ↔
    (a.1 < b.1 ∨ (a.1 = b.1 ∧ (a.2.1 < b.2.1 ∨
      (a.2.1 = b.2.1 ∧ a.2.2 ≤ b.2.2)))) := by
  unfold entryLE
  split_ifs with h1 h2 h3 h4 <;> simp <;> omega

theorem entryLE_refl (a : ℤ × Position) : entryLE a a = true := by
  rw [entryLE_iff]
  omega

theorem entryLE_total (a b : ℤ × Position) (h : ¬ entryLE a b = true) :
    entryLE b a = true := by
  rw [entryLE_iff] at h ⊢
  omega

theorem entryLE_trans (a b c : ℤ × Position) (h1 : entryLE a b = true)
    (h2 : entryLE b c = true) : entryLE a c = true := by
  rw [entryLE_iff] at h1 h2 ⊢
  omega

theorem entryLE_fst_le (a b : ℤ × Position) (h : entryLE a b = true) :
    a.1 ≤ b.1 := by
  rw [entryLE_iff] at h
  omega

theorem extractMin_le (e : ℤ × Position) (l : List (ℤ × Position)) :
    ∀ x ∈ e :: l, entryLE (extractMin e l).1 x = true := by
  induction l generalizing e with
  | nil =>
    intro x hx
    rw [List.mem_singleton.mp hx]
    exact entryLE_refl e
  | cons y ys ih =>
    intro x hx
    unfold extractMin
    by_cases h : entryLE e y = true
    · rw [if_pos h]
      dsimp only
      rcases List.mem_cons.mp hx with rfl | hx2
      · exact ih x x (List.mem_cons_self x ys)
      · rcases List.mem_cons.mp hx2 with rfl | hx3
        · exact entryLE_trans _ _ _ (ih e e (List.mem_cons_self e ys)) h
        · exact ih e x (List.mem_cons_of_mem e hx3)
    · rw [if_neg h]
      dsimp only
      have h2 : entryLE y e = true := entryLE_total e y h
      rcases List.mem_cons.mp hx with rfl | hx2
      · exact entryLE_trans _ _ _ (ih y y (List.mem_cons_self y ys)) h2
      · rcases List.mem_cons.mp hx2 with rfl | hx3
        · exact ih x x (List.mem_cons_self x ys)
        · exact ih y x (List.mem_cons_of_mem y hx3)

theorem extractMin_perm (e : ℤ × Position) (l : List (ℤ × Position)) :
    List.Perm (e :: l) ((extractMin e l).1 :: (extractMin e l).2) := by
  induction l generalizing e with
  | nil => simp [extractMin]
  | cons y ys ih =>
    unfold extractMin
    by_cases h : entryLE e y = true
    · rw [if_pos h]
      dsimp only
      exact ((List.Perm.swap y e ys).trans ((ih e).cons y)).trans
        (List.Perm.swap _ _ _)
    · rw [if_neg h]
      dsimp only
      exact ((ih y).cons e).trans (List.Perm.swap _ _ _)

theorem alistFind_isSome_mem {α : Type} (p : Position)
    (m : List (Position × α)) (h : (alistFind p m).isSome = true) :
    ∃ e ∈ m, e.1 = p := by
  induction m with
  | nil => simp [alistFind] at h
  | cons x xs ih =>
    obtain ⟨k, v⟩ := x
    by_cases he : k = p
    · exact ⟨(k, v), List.mem_cons_self _ _, he⟩
    · rw [alistFind, if_neg he] at h
      obtain ⟨e, hm, hk⟩ := ih h
      exact ⟨e, List.mem_cons_of_mem _ hm, hk⟩

theorem alistFind_eraseP_ne {α : Type} (q p : Position)
    (m : List (Position × α)) (hne : q ≠ p) :
    alistFind q (m.eraseP (fun e => decide (e.1 = p))) = alistFind q m := by
  induction m with
  | nil => rfl
  | cons x xs ih =>
    obtain ⟨k, v⟩ := x
    by_cases hk : k = p
    · have her : List.eraseP (fun e => decide (e.1 = p)) ((k, v) :: xs) =
          xs :=
        List.eraseP_cons_of_pos (by
          show decide ((k, v).1 = p) = true
          simp [hk])
      rw [her]
      rw [alistFind, if_neg (fun hh => hne (hk ▸ hh).symm)]
    · have her : List.eraseP (fun e => decide (e.1 = p)) ((k, v) :: xs) =
          (k, v) :: List.eraseP (fun e => decide (e.1 = p)) xs :=
        List.eraseP_cons_of_neg (by
          show ¬ decide ((k, v).1 = p) = true
          simp [hk])
      rw [her]
      by_cases hq : k = q
      · rw [alistFind, if_pos hq, alistFind, if_pos hq]
      · rw [alistFind, if_neg hq, alistFind, if_neg hq, ih]

theorem length_le_of_keys {α : Type} :
    ∀ (l : List Position) (m : List (Position × α)), l.Nodup →
      (∀ p ∈ l, (alistFind p m).isSome = true) → l.length ≤ m.length := by
  intro l
  induction l with
  | nil =>
    intro m _ _
    simp
  | cons p ps ih =>
    intro m hnd hall
    obtain ⟨hpn, hpsn⟩ := List.nodup_cons.mp hnd
    obtain ⟨e, hem, hk⟩ := alistFind_isSome_mem p m
      (hall p (List.mem_cons_self _ _))
    have hlen : (m.eraseP (fun x => decide (x.1 = p))).length =
        m.length - 1 :=
      List.length_eraseP_of_mem hem (by
        show decide (e.1 = p) = true
        simp [hk])
    have hpos : 0 < m.length := List.length_pos_of_mem hem
    have hrec := ih (m.eraseP (fun x => decide (x.1 = p))) hpsn (by
      intro q hq
      rw [alistFind_eraseP_ne q p m (fun hh => hpn (hh ▸ hq))]
      exact hall q (List.mem_cons_of_mem _ hq))
    rw [hlen] at hrec
    simp only [List.length_cons]
    omega

theorem expandDir_cases (m : List (Position × CellKnowledge))
    (tgt cur : Position) (st st' : AStarState) (dd : Direction)
    (hok : expandDir m tgt cur st dd = .ok st') :
    st' = st ∨
    ∃ gc, alistFind cur st.g_score = some gc ∧
      (alistFind (stepPos cur dd) m).isSome = true ∧
      stepPos cur dd ∉ st.closed_set ∧
      (∀ gn, alistFind (stepPos cur dd) st.g_score = some gn → gc + 1 < gn) ∧
      st'.came_from = alistSet (stepPos cur dd) (cur, dd) st.came_from ∧
      st'.g_score = alistSet (stepPos cur dd) (gc + 1) st.g_score ∧
      st'.closed_set = st.closed_set ∧
      ((stepPos cur dd ∈ st.in_open_set ∧ st'.open_set = st.open_set ∧
          st'.in_open_set = st.in_open_set) ∨
        (stepPos cur dd ∉ st.in_open_set ∧
          st'.open_set =
            (gc + 1 + manhattan_distance (stepPos cur dd) tgt, stepPos cur dd)
              :: st.open_set ∧
          st'.in_open_set = stepPos cur dd :: st.in_open_set)) := by
  unfold expandDir at hok
  dsimp only at hok
  by_cases hclosed : stepPos cur dd ∈ st.closed_set
  · rw [if_pos hclosed] at hok
    injection hok with e
    exact Or.inl e.symm
  rw [if_neg hclosed] at hok
  by_cases hmapn : (alistFind (stepPos cur dd) m).isNone = true
  · rw [if_pos hmapn] at hok
    injection hok with e
    exact Or.inl e.symm
  rw [if_neg hmapn] at hok
  have hmem : (alistFind (stepPos cur dd) m).isSome = true := by
    cases hx : alistFind (stepPos cur dd) m with
    | none => rw [hx] at hmapn; exact absurd rfl hmapn
    | some v => rfl
  cases hcell : alistFind cur m with
  | none =>
    rw [hcell] at hok
    dsimp only at hok
    cases hok
  | some cc =>
  rw [hcell] at hok
  dsimp only at hok
  cases hdel : cc.delta dd with
  | none =>
    rw [hdel] at hok
    dsimp only at hok
    injection hok with e
    exact Or.inl e.symm
  | some hd =>
  rw [hdel] at hok
  dsimp only at hok
  by_cases hunsafe : |hd| > MAX_SAFE_HEIGHT
  · rw [if_pos hunsafe] at hok
    injection hok with e
    exact Or.inl e.symm
  rw [if_neg hunsafe] at hok
  cases hgcur : alistFind cur st.g_score with
  | none =>
    rw [hgcur] at hok
    dsimp only at hok
    cases hok
  | some gc =>
  rw [hgcur] at hok
  dsimp only at hok
  cases hgn : alistFind (stepPos cur dd) st.g_score with
  | some gn =>
    rw [hgn] at hok
    dsimp only at hok
    by_cases hge : gc + 1 ≥ gn
    · rw [if_pos hge] at hok
      injection hok with e
      exact Or.inl e.symm
    rw [if_neg hge] at hok
    refine Or.inr ⟨gc, rfl, hmem, hclosed, ?_, ?_⟩
    · intro gn2 h2
      injection h2 with e2
      omega
    by_cases hio : stepPos cur dd ∈ st.in_open_set
    · rw [if_pos hio] at hok
      injection hok with e
      subst e
      exact ⟨rfl, rfl, rfl, Or.inl ⟨hio, rfl, rfl⟩⟩
    · rw [if_neg hio] at hok
      injection hok with e
      subst e
      exact ⟨rfl, rfl, rfl, Or.inr ⟨hio, rfl, rfl⟩⟩
  | none =>
    rw [hgn] at hok
    dsimp only at hok
    refine Or.inr ⟨gc, rfl, hmem, hclosed, ?_, ?_⟩
    · intro gn2 h2
      cases h2
    by_cases hio : stepPos cur dd ∈ st.in_open_set
    · rw [if_pos hio] at hok
      injection hok with e
      subst e
      exact ⟨rfl, rfl, rfl, Or.inl ⟨hio, rfl, rfl⟩⟩
    · rw [if_neg hio] at hok
      injection hok with e
      subst e
      exact ⟨rfl, rfl, rfl, Or.inr ⟨hio, rfl, rfl⟩⟩

theorem expandDir_push (m : List (Position × CellKnowledge))
    (tgt cur : Position) (st : AStarState) (dd : Direction) (gc : ℤ)
    (cc : CellKnowledge)
    (hgc : alistFind cur st.g_score = some gc)
    (hcell : alistFind cur m = some cc)
    (hdelta : cc.delta dd = some 0)
    (hmem : (alistFind (stepPos cur dd) m).isSome = true)
    (hnclosed : stepPos cur dd ∉ st.closed_set)
    (hnscored : alistFind (stepPos cur dd) st.g_score = none)
    (hninopen : stepPos cur dd ∉ st.in_open_set) :
    expandDir m tgt cur st dd = .ok { st with
      came_from := alistSet (stepPos cur dd) (cur, dd) st.came_from
      g_score := alistSet (stepPos cur dd) (gc + 1) st.g_score
      f_score := alistSet (stepPos cur dd)
        (gc + 1 + manhattan_distance (stepPos cur dd) tgt) st.f_score
      open_set := (gc + 1 + manhattan_distance (stepPos cur dd) tgt,
        stepPos cur dd) :: st.open_set
      in_open_set := stepPos cur dd :: st.in_open_set } := by
  unfold expandDir
  dsimp only
  rw [if_neg hnclosed]
  rw [if_neg (by
    rw [Option.isNone_iff_eq_none]
    intro hh
    rw [hh] at hmem
    cases hmem)]
  rw [hcell]
  dsimp only
  rw [hdelta]
  dsimp only
  rw [if_neg (by decide : ¬ |(0 : ℤ)| > MAX_SAFE_HEIGHT)]
  rw [hgc]
  dsimp only
  rw [hnscored]
  dsimp only
  rw [if_neg hninopen]

theorem expandDirs_effect (m : List (Position × CellKnowledge))
    (src tgt cur : Position)
    (hflat : ∀ p c (dr : Direction), alistFind p m = some c →
      c.delta dr = some 0) :
    ∀ (ds : List Direction), ds.Nodup →
    ∀ (st st' : AStarState), expandDirs m tgt cur ds st = .ok st' →
      (alistFind cur m).isSome = true →
      st'.closed_set = st.closed_set ∧
      (∀ x, x ∈ st.open_set → x ∈ st'.open_set) ∧
      (∀ p, (alistFind p st.g_score).isSome = true →
        (alistFind p st'.g_score).isSome = true) ∧
      (∀ p gp, alistFind p st.g_score = some gp →
        ∃ gp2, alistFind p st'.g_score = some gp2 ∧ gp2 ≤ gp) ∧
      (∀ w, alistFind w st.g_score = none →
        (∀ dd, dd ∈ ds → stepPos cur dd ≠ w) →
        alistFind w st'.g_score = none) ∧
      ((∀ p gp, alistFind p st.g_score = some gp →
          (alistFind p m).isSome = true ∧ manhattan_distance src p ≤ gp) →
        (∀ p gp, alistFind p st'.g_score = some gp →
          (alistFind p m).isSome = true ∧ manhattan_distance src p ≤ gp)) ∧
      ((∀ f p, (f, p) ∈ st.open_set → ∃ gp, alistFind p st.g_score = some gp ∧
          gp + manhattan_distance p tgt ≤ f) →
        (∀ f p, (f, p) ∈ st'.open_set →
          ∃ gp, alistFind p st'.g_score = some gp ∧
            gp + manhattan_distance p tgt ≤ f)) ∧
      (((∀ f p, (f, p) ∈ st.open_set → p ∈ st.in_open_set) ∧
          (st.open_set.map Prod.snd).Nodup ∧
          (∀ p, p ∈ st.in_open_set →
            (alistFind p st.g_score).isSome = true) ∧
          (∀ p, p ∈ st.closed_set →
            (alistFind p st.g_score).isSome = true) ∧
          (∀ f p, (f, p) ∈ st.open_set → p ∉ st.closed_set)) →
        ((∀ f p, (f, p) ∈ st'.open_set → p ∈ st'.in_open_set) ∧
          (st'.open_set.map Prod.snd).Nodup ∧
          (∀ p, p ∈ st'.in_open_set →
            (alistFind p st'.g_score).isSome = true) ∧
          (∀ p, p ∈ st'.closed_set →
            (alistFind p st'.g_score).isSome = true) ∧
          (∀ f p, (f, p) ∈ st'.open_set → p ∉ st'.closed_set))) ∧
      (∀ dd, dd ∈ ds → ∀ gc, alistFind cur st.g_score = some gc →
        alistFind (stepPos cur dd) st.g_score = none →
        (alistFind (stepPos cur dd) m).isSome = true →
        stepPos cur dd ∉ st.closed_set →
        stepPos cur dd ∉ st.in_open_set →
        (gc + 1 + manhattan_distance (stepPos cur dd) tgt, stepPos cur dd)
          ∈ st'.open_set) := by
  intro ds
  induction ds with
  | nil =>
    intro _ st st' hok _
    unfold expandDirs at hok
    injection hok with e
    subst e
    refine ⟨rfl, fun x hx => hx, fun p h => h, fun p gp h => ⟨gp, h, le_refl gp⟩,
      fun w h _ => h, fun h => h, fun h => h, fun h => h, ?_⟩
    intro dd hdd
    cases hdd
  | cons d ds ih =>
    intro hnd st st' hok hcurm
    obtain ⟨hdd, hndtail⟩ := List.nodup_cons.mp hnd
    unfold expandDirs at hok
    cases hstep : expandDir m tgt cur st d with
    | error e2 =>
      rw [hstep] at hok
      cases hok
    | ok stM =>
      rw [hstep] at hok
      dsimp only at hok
      have IH := ih hndtail stM st' hok hcurm
      obtain ⟨ihclosed, ihopen, ihsome, ihdec, ihnone, ihglow, ihook,
        ihbundle, ihpush⟩ := IH
      rcases expandDir_cases m tgt cur st stM d hstep with heq | hrelax
      · subst heq
        refine ⟨ihclosed, ihopen, ihsome, ihdec, ?_, ihglow, ihook,
          ihbundle, ?_⟩
        · intro w hw hall
          exact ihnone w hw (fun dd h2 => hall dd (List.mem_cons_of_mem d h2))
        · intro dd hdd2 gc hgc hw hm hc hi
          rcases List.mem_cons.mp hdd2 with rfl | hdd3
          · exfalso
            obtain ⟨cc, hcc⟩ := Option.isSome_iff_exists.mp hcurm
            have hp := expandDir_push m tgt cur stM dd gc cc hgc hcc
              (hflat cur cc dd hcc) hm hc hw hi
            rw [hstep] at hp
            injection hp with e3
            have he4 := congrArg AStarState.in_open_set e3
            dsimp only at he4
            rw [he4] at hi
            exact hi (List.mem_cons_self _ _)
          · exact ihpush dd hdd3 gc hgc hw hm hc hi
      · obtain ⟨gc, hgc, hmmem, hnclosed, hlt, hcame, hg, hclosed, hcase⟩ :=
          hrelax
        have hne : cur ≠ stepPos cur d := (stepPos_ne cur d).symm
        have hgcM : alistFind cur stM.g_score = some gc := by
          rw [hg, alistFind_set_ne _ _ _ _ hne]
          exact hgc
        have hopenM : ∀ x, x ∈ st.open_set → x ∈ stM.open_set := by
          rcases hcase with ⟨_, ho, _⟩ | ⟨_, ho, _⟩
          · rw [ho]
            exact fun x hx => hx
          · rw [ho]
            exact fun x hx => List.mem_cons_of_mem _ hx
        have hsomeM : ∀ p, (alistFind p st.g_score).isSome = true →
            (alistFind p stM.g_score).isSome = true := by
          intro p h
          rw [hg]
          exact alistFind_set_isSome _ _ _ _ h
        have hdecM : ∀ p gp, alistFind p st.g_score = some gp →
            ∃ gp2, alistFind p stM.g_score = some gp2 ∧ gp2 ≤ gp := by
          intro p gp h
          rw [hg]
          by_cases hp : p = stepPos cur d
          · subst hp
            rw [alistFind_set_self]
            exact ⟨gc + 1, rfl, le_of_lt (hlt gp h)⟩
          · rw [alistFind_set_ne _ _ _ _ hp]
            exact ⟨gp, h, le_refl gp⟩
        refine ⟨ihclosed.trans hclosed, fun x hx => ihopen x (hopenM x hx),
          fun p h => ihsome p (hsomeM p h), ?_, ?_, ?_, ?_, ?_, ?_⟩
        · intro p gp h
          obtain ⟨gp2, h2, hle2⟩ := hdecM p gp h
          obtain ⟨gp3, h3, hle3⟩ := ihdec p gp2 h2
          exact ⟨gp3, h3, le_trans hle3 hle2⟩
        · intro w hw hall
          have hwM : alistFind w stM.g_score = none := by
            rw [hg, alistFind_set_ne _ _ _ _
              (fun hh => hall d (List.mem_cons_self _ _) hh.symm)]
            exact hw
          exact ihnone w hwM (fun dd h2 => hall dd (List.mem_cons_of_mem d h2))
        · intro hglow
          refine ihglow ?_
          intro p gp h
          rw [hg] at h
          by_cases hp : p = stepPos cur d
          · subst hp
            rw [alistFind_set_self] at h
            injection h with e3
            subst e3
            refine ⟨hmmem, ?_⟩
            have ht := mdist_triangle src cur (stepPos cur d)
            have hs := mdist_step cur d
            have hc := (hglow cur gc hgc).2
            omega
          · rw [alistFind_set_ne _ _ _ _ hp] at h
            exact hglow p gp h
        · intro hook
          refine ihook ?_
          intro f p hp
          have hgM : ∀ gp, alistFind p st.g_score = some gp →
              ∃ gp2, alistFind p stM.g_score = some gp2 ∧ gp2 ≤ gp :=
            fun gp h => hdecM p gp h
          rcases hcase with ⟨_, ho, _⟩ | ⟨hio, ho, _⟩
          · rw [ho] at hp
            obtain ⟨gp, h1, h2⟩ := hook f p hp
            obtain ⟨gp2, h3, h4⟩ := hgM gp h1
            exact ⟨gp2, h3, by omega⟩
          · rw [ho] at hp
            rcases List.mem_cons.mp hp with he | hp2
            · injection he with he1 he2
              subst he2
              subst he1
              rw [hg, alistFind_set_self]
              exact ⟨gc + 1, rfl, le_refl _⟩
            · obtain ⟨gp, h1, h2⟩ := hook f p hp2
              obtain ⟨gp2, h3, h4⟩ := hgM gp h1
              exact ⟨gp2, h3, by omega⟩
        · intro ⟨hsync, hnodup, hios, hcs, hdisj⟩
          refine ihbundle ⟨?_, ?_, ?_, ?_, ?_⟩
          · intro f p hp
            rcases hcase with ⟨_, ho, hi⟩ | ⟨hio, ho, hi⟩
            · rw [ho] at hp
              rw [hi]
              exact hsync f p hp
            · rw [ho] at hp
              rw [hi]
              rcases List.mem_cons.mp hp with he | hp2
              · injection he with he1 he2
                rw [he2]
                exact List.mem_cons_self _ _
              · exact List.mem_cons_of_mem _ (hsync f p hp2)
          · rcases hcase with ⟨_, ho, _⟩ | ⟨hio, ho, _⟩
            · rw [ho]
              exact hnodup
            · rw [ho]
              simp only [List.map_cons]
              refine List.nodup_cons.mpr ⟨?_, hnodup⟩
              intro hmem2
              obtain ⟨x, hx, hx2⟩ := List.mem_map.mp hmem2
              exact hio (by
                have := hsync x.1 x.2 (by
                  rw [← Prod.mk.eta (p := x)] at hx
                  exact hx)
                rw [hx2] at this
                exact this)
          · intro p hp
            rcases hcase with ⟨_, _, hi⟩ | ⟨hio, _, hi⟩
            · rw [hi] at hp
              exact hsomeM p (hios p hp)
            · rw [hi] at hp
              rcases List.mem_cons.mp hp with rfl | hp2
              · rw [hg, alistFind_set_self]
                rfl
              · exact hsomeM p (hios p hp2)
          · intro p hp
            rw [hclosed] at hp
            exact hsomeM p (hcs p hp)
          · intro f p hp
            rw [hclosed]
            rcases hcase with ⟨_, ho, _⟩ | ⟨hio, ho, _⟩
            · rw [ho] at hp
              exact hdisj f p hp
            · rw [ho] at hp
              rcases List.mem_cons.mp hp with he | hp2
              · injection he with he1 he2
                rw [he2]
                exact hnclosed
              · exact hdisj f p hp2
        · intro dd hdd2 gc2 hgc2 hw hm hc hi
          have hgc2' : gc2 = gc := by
            rw [hgc] at hgc2
            injection hgc2 with e3
            exact e3.symm
          subst hgc2'
          rcases List.mem_cons.mp hdd2 with rfl | hdd3
          · rcases hcase with ⟨hio2, ho, _⟩ | ⟨hio2, ho, _⟩
            · exact absurd hio2 hi
            · refine ihopen _ ?_
              rw [ho]
              exact List.mem_cons_self _ _
          · refine ihpush dd hdd3 gc2 ?_ ?_ hm ?_ ?_
            · exact hgcM
            · rw [hg, alistFind_set_ne _ _ _ _ (by
                intro hh
                exact hdd (by
                  have := stepPos_inj cur hh
                  rw [← this]
                  exact hdd3))]
              exact hw
            · rw [hclosed]
              exact hc
            · rcases hcase with ⟨_, _, hi2⟩ | ⟨hio2, _, hi2⟩
              · rw [hi2]
                exact hi
              · rw [hi2]
                intro hmem2
                rcases List.mem_cons.mp hmem2 with he | hp2
                · exact hdd (by
                    have := stepPos_inj cur he
                    rw [← this]
                    exact hdd3)
                · exact hi hp2

theorem mem_agentDirections (dd : Direction) : dd ∈ agentDirections := by
  cases dd <;> simp [agentDirections]

theorem agentDirections_nodup : agentDirections.Nodup := by
  decide

theorem expandDir_no_error (m : List (Position × CellKnowledge))
    (tgt cur : Position) (st : AStarState) (dd : Direction) (e : Unit)
    (hm : (alistFind cur m).isSome = true)
    (hg : (alistFind cur st.g_score).isSome = true)
    (herr : expandDir m tgt cur st dd = .error e) : False := by
  unfold expandDir at herr
  dsimp only at herr
  repeat' split at herr
  all_goals
    first
      | (rename_i heq
         rw [heq] at hm
         cases hm)
      | (rename_i heq
         rw [heq] at hg
         cases hg)
      | cases herr

theorem expandDirs_ok (m : List (Position × CellKnowledge))
    (tgt cur : Position) :
    ∀ (ds : List Direction) (st : AStarState),
      (alistFind cur m).isSome = true →
      (alistFind cur st.g_score).isSome = true →
      ∃ st2, expandDirs m tgt cur ds st = .ok st2 := by
  intro ds
  induction ds with
  | nil =>
    intro st _ _
    exact ⟨st, rfl⟩
  | cons d ds ih =>
    intro st hm hg
    cases hstep : expandDir m tgt cur st d with
    | error e => exact (expandDir_no_error m tgt cur st d e hm hg hstep).elim
    | ok stM =>
      have hg2 : (alistFind cur stM.g_score).isSome = true := by
        rcases expandDir_cases m tgt cur st stM d hstep with heq | hrel
        · rw [heq]
          exact hg
        · obtain ⟨gc, _, _, _, _, _, hgs, _, _⟩ := hrel
          rw [hgs]
          exact alistFind_set_isSome _ _ _ _ hg
      obtain ⟨st2, h2⟩ := ih stM hm hg2
      refine ⟨st2, ?_⟩
      unfold expandDirs
      rw [hstep]
      dsimp only
      exact h2

theorem mem_setRemove_iff (l : List Position) (p q : Position) :
    q ∈ setRemove l p ↔ q ∈ l ∧ q ≠ p := by
  simp [setRemove, List.mem_filter]


theorem aStarLoop_flat (N : ℤ) (m : List (Position × CellKnowledge))
    (src tgt : Position)
    (hgrid : ∀ p : Position, (alistFind p m).isSome = true ↔ inGrid N p)
    (hflat : ∀ p c (dr : Direction), alistFind p m = some c →
      c.delta dr = some 0)
    (hsrc : inGrid N src) (htgt : inGrid N tgt) :
    ∀ (fuel : ℕ) (st : AStarState), AStarInv m src tgt st →
      m.length + 1 ≤ fuel + st.closed_set.length →
      ∃ path, aStarLoop m tgt fuel st = .ok (some path) ∧
        (path.length : ℤ) = manhattan_distance src tgt := by
  intro fuel
  induction fuel with
  | zero =>
    intro st hinv hfuel
    exfalso
    obtain ⟨_, hglow, _, _, _, _, hcs, hcnd, _, _⟩ := hinv
    have hb := length_le_of_keys st.closed_set m hcnd (by
      intro p hp
      obtain ⟨gp, hgp⟩ := Option.isSome_iff_exists.mp (hcs p hp)
      exact (hglow p gp hgp).1)
    omega
  | succ fuel ih =>
    intro st hinv hfuel
    obtain ⟨hcame, hglow, hook, hsync, hnodup, hios, hcs, hcnd, hdisj,
      a, haent, hgood⟩ := hinv
    cases hopen : st.open_set with
    | nil =>
      rw [hopen] at haent
      exact absurd haent (List.not_mem_nil _)
    | cons e es =>
      have hperm := extractMin_perm e es
      have hpmem : (extractMin e es).1 ∈ st.open_set := by
        rw [hopen]
        exact extractMin_mem e es
      obtain ⟨gu, hgu, hfu⟩ := hook (extractMin e es).1.1 (extractMin e es).1.2
        (by rw [Prod.mk.eta]; exact hpmem)
      have hdu := (hglow (extractMin e es).1.2 gu hgu).2
      have humap := (hglow (extractMin e es).1.2 gu hgu).1
      have hmle : (extractMin e es).1.1 ≤ manhattan_distance src tgt := by
        refine entryLE_fst_le (extractMin e es).1
          (manhattan_distance src tgt, a) ?_
        refine extractMin_le e es (manhattan_distance src tgt, a) ?_
        rw [← hopen]
        exact haent
      have htri := mdist_triangle src (extractMin e es).1.2 tgt
      have hguD : gu = manhattan_distance src (extractMin e es).1.2 := by
        omega
      have huonsp : manhattan_distance src (extractMin e es).1.2 +
          manhattan_distance (extractMin e es).1.2 tgt =
          manhattan_distance src tgt := by omega
      unfold aStarLoop
      rw [hopen]
      dsimp only
      by_cases htgtpop : (extractMin e es).1.2 = tgt
      · rw [if_pos htgtpop]
        obtain ⟨hlink, hsrcnone, hcover, hsrc0, hheap⟩ := hcame
        rw [htgtpop] at hgu hguD
        rw [htgtpop, hgu, hguD]
        simp only [Option.getD_some]
        refine ⟨_, rfl, ?_⟩
        rw [hguD] at hgu
        obtain ⟨hsafe2, hfollow, hlen⟩ := reconstruct_safe m src st.came_from
          st.g_score hlink hcover (manhattan_distance src tgt).natAbs tgt
          (manhattan_distance src tgt) hgu le_rfl
        have hwalk := manhattan_le_walk (reconstruct_path st.came_from
          (manhattan_distance src tgt).natAbs tgt) src
        rw [hfollow] at hwalk
        have hDnn := mdist_nonneg src tgt
        omega
      · rw [if_neg htgtpop]
        rw [hopen] at hnodup
        have hnodup3 : (((extractMin e es).1 :: (extractMin e es).2).map
            Prod.snd).Nodup := ((hperm.map Prod.snd).nodup_iff).mp hnodup
        rw [List.map_cons] at hnodup3
        obtain ⟨hunotin, hrestnd⟩ := List.nodup_cons.mp hnodup3
        have hrest : ∀ x ∈ (extractMin e es).2, x ∈ st.open_set := by
          intro x hx
          rw [hopen]
          exact extractMin_rest_subset e es x hx
        have hrestne : ∀ f p, (f, p) ∈ (extractMin e es).2 →
            p ≠ (extractMin e es).1.2 := by
          intro f p hp he2
          exact hunotin (he2 ▸ List.mem_map_of_mem Prod.snd hp)
        have hunc : (extractMin e es).1.2 ∉ st.closed_set :=
          hdisj (extractMin e es).1.1 (extractMin e es).1.2
            (by rw [Prod.mk.eta]; exact hpmem)
        obtain ⟨st4, hexp⟩ := expandDirs_ok m tgt (extractMin e es).1.2
          agentDirections
          { open_set := (extractMin e es).2,
            in_open_set := setRemove st.in_open_set (extractMin e es).1.2,
            closed_set := (extractMin e es).1.2 :: st.closed_set,
            g_score := st.g_score,
            f_score := st.f_score,
            came_from := st.came_from }
          humap (by dsimp only; rw [hgu]; rfl)
        rw [hexp]
        dsimp only
        have heff := expandDirs_effect m src tgt (extractMin e es).1.2 hflat
          agentDirections agentDirections_nodup
          { open_set := (extractMin e es).2,
            in_open_set := setRemove st.in_open_set (extractMin e es).1.2,
            closed_set := (extractMin e es).1.2 :: st.closed_set,
            g_score := st.g_score,
            f_score := st.f_score,
            came_from := st.came_from }
          st4 hexp humap
        dsimp only at heff
        obtain ⟨effclosed, effopen, effsome, effdec, effnone, effglow, effook,
          effbundle, effpush⟩ := heff
        have hcame2 : CameOk m src
            { open_set := (extractMin e es).2,
              in_open_set := setRemove st.in_open_set (extractMin e es).1.2,
              closed_set := (extractMin e es).1.2 :: st.closed_set,
              g_score := st.g_score,
              f_score := st.f_score,
              came_from := st.came_from } := by
          unfold CameOk at hcame ⊢
          obtain ⟨hlink, hsrcnone, hcover, hsrc0, hheap⟩ := hcame
          refine ⟨hlink, hsrcnone, hcover, hsrc0, ?_⟩
          intro f p hp
          dsimp only at hp
          exact hheap f p (hrest (f, p) hp)
        have hcame4 := expandDirs_cameOk m src tgt (extractMin e es).1.2
          agentDirections _ st4 hcame2 hexp
        have hbundle2 := effbundle ⟨by
            intro f p hp
            rw [mem_setRemove_iff]
            exact ⟨hsync f p (hrest (f, p) hp), hrestne f p hp⟩,
          hrestnd, by
            intro p hp
            exact hios p ((mem_setRemove_iff _ _ _).mp hp).1,
          by
            intro p hp
            rcases List.mem_cons.mp hp with rfl | hp2
            · rw [hgu]
              rfl
            · exact hcs p hp2,
          by
            intro f p hp hmem2
            rcases List.mem_cons.mp hmem2 with he2 | hp2
            · exact hrestne f p hp he2
            · exact hdisj f p (hrest (f, p) hp) hp2⟩
        obtain ⟨sync4, nodup4, ios4, cs4, disj4⟩ := hbundle2
        have hgood4 : ∃ w, (manhattan_distance src tgt, w) ∈ st4.open_set ∧
            ∀ w2, coneMem tgt w w2 → w2 ≠ w →
              alistFind w2 st4.g_score = none := by
          by_cases hS : ∃ dd : Direction,
              coneMem tgt a (stepPos (extractMin e es).1.2 dd) ∧
              stepPos (extractMin e es).1.2 dd ≠ a ∧
              alistFind (stepPos (extractMin e es).1.2 dd) st.g_score = none
          · obtain ⟨dstar, hcw, hwa, hwn⟩ := hS
            have hfresh : manhattan_distance
                (stepPos (extractMin e es).1.2 dstar) tgt + 1 =
                manhattan_distance (extractMin e es).1.2 tgt := by
              refine step_into_cone tgt a (extractMin e es).1.2
                (stepPos (extractMin e es).1.2 dstar) dstar hcw rfl ?_
              by_cases hua : (extractMin e es).1.2 = a
              · exact Or.inl hua
              · refine Or.inr ?_
                intro hcu
                have hnn := hgood (extractMin e es).1.2 hcu hua
                rw [hnn] at hgu
                cases hgu
            obtain ⟨ga, hga, hgaf⟩ := hook (manhattan_distance src tgt) a
              haent
            have hda := (hglow a ga hga).2
            have htria := mdist_triangle src a tgt
            have haonsp : manhattan_distance src a +
                manhattan_distance a tgt = manhattan_distance src tgt := by
              omega
            have hwgrid := coneMem_inGrid N src tgt a
              (stepPos (extractMin e es).1.2 dstar) haonsp hcw hsrc htgt
            have hwmem : (alistFind (stepPos (extractMin e es).1.2 dstar)
                m).isSome = true := (hgrid _).mpr hwgrid
            have hpush := effpush dstar (mem_agentDirections dstar) gu hgu
              hwn hwmem
              (by
                intro hmem2
                rcases List.mem_cons.mp hmem2 with he2 | hp2
                · exact stepPos_ne (extractMin e es).1.2 dstar he2
                · obtain ⟨gp, hgp⟩ :=
                    Option.isSome_iff_exists.mp (hcs _ hp2)
                  rw [hwn] at hgp
                  cases hgp)
              (by
                intro hmem2
                obtain ⟨gp, hgp⟩ := Option.isSome_iff_exists.mp
                  (hios _ ((mem_setRemove_iff _ _ _).mp hmem2).1)
                rw [hwn] at hgp
                cases hgp)
            have hfval : gu + 1 + manhattan_distance
                (stepPos (extractMin e es).1.2 dstar) tgt =
                manhattan_distance src tgt := by omega
            rw [hfval] at hpush
            refine ⟨stepPos (extractMin e es).1.2 dstar, hpush, ?_⟩
            intro w2 hcw2 hwne
            have hw0 : alistFind w2 st.g_score = none := by
              refine hgood w2 (coneMem_sub tgt a _ w2 hcw hcw2) ?_
              intro hwa2
              refine hwa ?_
              exact (coneMem_antisymm tgt a _ hcw (hwa2 ▸ hcw2)).symm
            refine effnone w2 hw0 ?_
            intro dd hdd heq2
            by_cases hds : dd = dstar
            · subst hds
              exact hwne heq2.symm
            · exact other_step_out tgt (extractMin e es).1.2 dstar dd hfresh
                hds (heq2 ▸ hcw2)
          · have hua : (extractMin e es).1.2 ≠ a := by
              intro he2
              obtain ⟨dd, hdd⟩ := forward_exists tgt (extractMin e es).1.2
                htgtpop
              have hc1 : coneMem tgt a (stepPos (extractMin e es).1.2 dd) := by
                rw [← he2]
                exact hdd
              have hc2 : stepPos (extractMin e es).1.2 dd ≠ a := by
                rw [← he2]
                exact stepPos_ne _ dd
              exact hS ⟨dd, hc1, hc2, hgood _ hc1 hc2⟩
            have haent2 : (manhattan_distance src tgt, a) ∈
                (extractMin e es).2 := by
              have hmem2 := (hperm.mem_iff).mp (hopen ▸ haent)
              rcases List.mem_cons.mp hmem2 with he2 | h2
              · exact absurd (congrArg Prod.snd he2).symm hua
              · exact h2
            refine ⟨a, effopen _ haent2, ?_⟩
            intro w2 hcw2 hwa2
            have hw0 := hgood w2 hcw2 hwa2
            refine effnone w2 hw0 ?_
            intro dd hdd heq2
            refine hS ⟨dd, ?_, ?_, ?_⟩
            · rw [heq2]
              exact hcw2
            · rw [heq2]
              exact hwa2
            · rw [heq2]
              exact hw0
        obtain ⟨w, hwent, hwgood⟩ := hgood4
        refine ih st4 ⟨hcame4, ?_, ?_, sync4, nodup4, ios4, cs4, ?_, disj4,
          w, hwent, hwgood⟩ ?_
        · refine effglow ?_
          intro p gp h
          exact hglow p gp h
        · refine effook ?_
          intro f p hp
          exact hook f p (hrest (f, p) hp)
        · rw [effclosed]
          exact List.nodup_cons.mpr ⟨hunc, hcnd⟩
        · rw [effclosed]
          simp only [List.length_cons]
          omega

/-- C3: on a fully open, flat `N`-by-`N` grid, with every grid cell present
in the agent's map and every directional height delta recorded as zero,
`a_star_pathfind` from any in-grid source (the agent's position) to any
in-grid target returns a path whose length equals the Manhattan distance
between source and target. -/
theorem a_star_flat_grid_optimal (N : ℤ) (a : VacuumAgent)
    (target_pos : Position)
    (hgrid : ∀ p : Position, (alistFind p a.map).isSome = true ↔ inGrid N p)
    (hflat : ∀ p c (dr : Direction), alistFind p a.map = some c →
      c.delta dr = some 0)
    (hsrc : inGrid N a.position) (htgt : inGrid N target_pos) :
    ∃ path, a.a_star_pathfind target_pos = .ok (some path) ∧
      (path.length : ℤ) = manhattan_distance a.position target_pos := by
  unfold VacuumAgent.a_star_pathfind
  dsimp only
  refine aStarLoop_flat N a.map a.position target_pos hgrid hflat hsrc htgt
    (a.map.length + 2)
    { open_set := [(manhattan_distance a.position target_pos, a.position)],
      in_open_set := [a.position],
      closed_set := [],
      g_score := [(a.position, 0)],
      f_score := [(a.position, manhattan_distance a.position target_pos)],
      came_from := [] }
    ?_ ?_
  · unfold AStarInv
    refine ⟨?_, ?_, ?_, ?_, ?_, ?_, ?_, ?_, ?_,
      ⟨a.position, ?_, ?_⟩⟩
    · unfold CameOk
      refine ⟨?_, rfl, ?_, ?_, ?_⟩
      · intro p q d hp
        simp [alistFind] at hp
      · intro p gp hp
        dsimp only at hp
        by_cases hpe : a.position = p
        · simp only [alistFind, if_pos hpe] at hp
          injection hp with e2
          subst e2
          exact ⟨le_refl 0, Or.inl hpe.symm⟩
        · simp only [alistFind, if_neg hpe] at hp
          cases hp
      · simp [alistFind]
      · intro f p hp
        dsimp only at hp
        have h1 := List.mem_singleton.mp hp
        have hpe : p = a.position := congrArg Prod.snd h1
        subst hpe
        simp [alistFind]
    · intro p gp hp
      dsimp only at hp
      by_cases hpe : a.position = p
      · simp only [alistFind, if_pos hpe] at hp
        injection hp with e2
        subst e2
        subst hpe
        refine ⟨(hgrid a.position).mpr hsrc, ?_⟩
        unfold manhattan_distance
        simp
      · simp only [alistFind, if_neg hpe] at hp
        cases hp
    · intro f p hp
      dsimp only at hp
      have h1 := List.mem_singleton.mp hp
      have hp2 : p = a.position := congrArg Prod.snd h1
      have hf2 : f = manhattan_distance a.position target_pos :=
        congrArg Prod.fst h1
      subst hp2
      refine ⟨0, by simp [alistFind], ?_⟩
      rw [hf2]
      simp
    · intro f p hp
      dsimp only at hp ⊢
      have h1 := List.mem_singleton.mp hp
      have hp2 : p = a.position := congrArg Prod.snd h1
      rw [hp2]
      exact List.mem_singleton.mpr rfl
    · simp
    · intro p hp
      dsimp only at hp
      rw [List.mem_singleton.mp hp]
      simp [alistFind]
    · intro p hp
      cases hp
    · simp
    · intro f p hp hc
      cases hc
    · exact List.mem_singleton.mpr rfl
    · intro w hcw hwne
      dsimp only
      rw [alistFind, if_neg (fun hh => hwne hh.symm)]
      rfl
  · dsimp only
    simp only [List.length_nil]
    omega

/-- Witness for C3: on the flat 2-by-2 grid `flatFourMap`, routing from
`(0,0)` to `(1,1)` yields a path of length 2, the Manhattan distance. -/
theorem a_star_flat_grid_optimal_witness :
    ∃ path, flatFourAgent.a_star_pathfind ((1 : ℤ), (1 : ℤ)) =
        .ok (some path) ∧
      (path.length : ℤ) =
        manhattan_distance flatFourAgent.position ((1 : ℤ), (1 : ℤ)) := by
  refine a_star_flat_grid_optimal 2 flatFourAgent ((1 : ℤ), (1 : ℤ))
    ?_ ?_ ?_ ?_
  · intro p
    obtain ⟨x, y⟩ := p
    show (alistFind (x, y) flatFourMap).isSome = true ↔ inGrid 2 (x, y)
    unfold flatFourMap inGrid
    simp only [alistFind, Prod.ext_iff]
    split_ifs with h1 h2 h3 h4 <;> simp_all <;> omega
  · intro p c dr h
    obtain ⟨x, y⟩ := p
    have h2 : alistFind (x, y) flatFourMap = some c := h
    unfold flatFourMap at h2
    simp only [alistFind] at h2
    split_ifs at h2 <;>
      first
        | (injection h2 with e2
           subst e2
           cases dr <;> rfl)
        | cases h2
  · show inGrid 2 ((0 : ℤ), (0 : ℤ))
    unfold inGrid
    refine ⟨?_, ?_, ?_, ?_⟩ <;> norm_num
  · unfold inGrid
    refine ⟨?_, ?_, ?_, ?_⟩ <;> norm_num
